import Mathlib

/-!
# pdf-fillform: a shallow embedding of `pdfformfiller.go`

The Go program indexes the widget dictionaries of a parsed PDF and rewrites a
few of their entries.  The embedding follows `src/pdfformfiller.go` function by
function.

Conventions.

* A Go `map` is an association list.  `mapGet` reads the first binding of a key
  and `mapSet` drops every old binding of the key before adding the new one, so
  the length of the list is `len(m)` whenever the map was built with `mapSet`.
  The order of the list `XRefTable.Table` is the order in which `range` visits
  the table (Go leaves that order unspecified, so every order is covered).
* `types.Dict` is a Go map, hence a reference: `FormField.Dict` aliases the
  dictionary stored in the table entry the field was read from.  The alias is
  the key of that entry, and a write through it rewrites the entry in place.
* A method with a pointer receiver returns the new receiver next to its Go
  result.  `error` is the message of the error, `none` is `nil`.
* A Go string the filler only stores, prints or compares (a key, a field
  name, a type tag, an option name) is a Lean `String`.  The text value of
  `SetTextFieldById`, which the program decodes into runes and encodes again,
  is a `GoString`: its bytes, well-formed UTF-8 or not.
* `float64` coordinates are rationals (finite values, no rounding modelled).
-/

namespace PdfFillForm

/-! ## Go maps -/

/-- Lookup `m[k]` with its `ok` flag: `none` when the key is absent. -/
def mapGet {κ α : Type} [DecidableEq κ] : List (κ × α) → κ → Option α
  | [], _ => none
  | (k', v) :: m, k => if k' = k then some v else mapGet m k

/-- The map without its bindings of `k`. -/
def mapErase {κ α : Type} [DecidableEq κ] : List (κ × α) → κ → List (κ × α)
  | [], _ => []
  | (k', v) :: m, k => if k' = k then mapErase m k else (k', v) :: mapErase m k

/-- Assignment `m[k] = v`. -/
def mapSet {κ α : Type} [DecidableEq κ] (m : List (κ × α)) (k : κ) (v : α) : List (κ × α) :=
  (k, v) :: mapErase m k

/-! ## Errors and panics -/

/-- A Go `error` value, identified with its message. -/
abbrev Error := String

/-- Result of `errors.Errorf` (github.com/pkg/errors): always an error. -/
def errorsErrorf (msg : String) : Option Error := some msg

/-- Result of `errors.Wrapf(err, ...)` / `errors.Wrap(err, ...)` from
github.com/pkg/errors, whose documentation reads "If err is nil, Wrapf returns
nil": the message is prefixed to an existing error, and `nil` stays `nil`. -/
def errorsWrapf (err : Option Error) (msg : String) : Option Error :=
  match err with
  | none => none
  | some e => some (msg ++ ": " ++ e)

/-- How a Go call ends: it returns, or it panics. -/
inductive Outcome (α : Type) where
  | returned (a : α)
  | panicked (msg : String)

/-! ## pdfcpu objects -/

/-- The pdfcpu objects (`types.Object`).  A stream dictionary is a kind of its
own: the type assertion `.(types.Dict)` fails on it. -/
inductive Object where
  | Dict (d : List (String × Object))
  | StreamDict (d : List (String × Object))
  | Array (a : List Object)
  | Name (s : String)
  | StringLiteral (s : String)
  | HexLiteral (s : String)
  | Integer (n : Int)
  | Float (f : ℚ)
  | Boolean (b : Bool)
  | IndirectRef (objNr : Int) (genNr : Int)

/-- A `types.Dict`. -/
abbrev Dict := List (String × Object)

/-- The method `Dict.Find`. -/
def Dict.Find (d : Dict) (key : String) : Option Object := mapGet d key

/-- The method `Dict.ArrayEntry`: the array stored under `key`, `nil` if there is none. -/
def Dict.ArrayEntry (d : Dict) (key : String) : Option (List Object) :=
  match d.Find key with
  | some (Object.Array a) => some a
  | _ => none

/-- Decimal digits of `n` padded with zeros on the left to at least `width` digits. -/
def padDigits (width : Nat) (n : Nat) : String :=
  let d := toString n
  String.mk (List.replicate (width - d.length) '0') ++ d

/-- The verbs `%.2f` and `%.4f` of Go `fmt` on a finite `float64`: the value
rounded to `prec` decimals (`prec` at least 1), ties to even, with its sign. -/
def formatFixed (prec : Nat) (x : ℚ) : String :=
  let num := x.num.natAbs * 10 ^ prec
  let fl := num / x.den
  let rem := num % x.den
  let n :=
    if 2 * rem < x.den then fl
    else if x.den < 2 * rem then fl + 1
    else if fl % 2 = 0 then fl else fl + 1
  (if x.num < 0 then "-" else "") ++ toString (n / 10 ^ prec) ++ "." ++
    padDigits prec (n % 10 ^ prec)

/-- The method `String()` of an object.  A name renders as its text, a literal
in its delimiters, a number in decimal, a reference as `(n g R)`.  An array or
a dictionary renders as its brackets only: pdfcpu lays the items out between
them, and the filler compares a rendering with `Widget`, `Tx` and `Btn` only,
which no bracketed text equals. -/
def Object.String : Object → String
  | .Dict _ => "<<>>"
  | .StreamDict _ => "<<>>"
  | .Array _ => "[]"
  | .Name s => s
  | .StringLiteral s => "(" ++ s ++ ")"
  | .HexLiteral s => "<" ++ s ++ ">"
  | .Integer n => toString n
  | .Float f => formatFixed 2 f
  | .Boolean b => if b then "true" else "false"
  | .IndirectRef o g => "(" ++ toString o ++ " " ++ toString g ++ " R)"

/-- A `types.Point`. -/
structure Point where
  X : ℚ
  Y : ℚ

/-- A `types.Rectangle`: lower-left and upper-right corner. -/
structure Rectangle where
  LL : Point
  UR : Point

/-- The method `Rectangle.Width`. -/
def Rectangle.Width (r : Rectangle) : ℚ := r.UR.X - r.LL.X

/-- The method `Rectangle.Height`. -/
def Rectangle.Height (r : Rectangle) : ℚ := r.UR.Y - r.LL.Y

/-- An entry of the cross-reference table (`model.XRefTableEntry`), reduced to
the object it holds; `Object` is `nil` for a free entry. -/
structure XRefTableEntry where
  Object : Option Object

/-- The `model.XRefTable`: `Table` maps object numbers to entries. -/
structure XRefTable where
  Table : List (Int × XRefTableEntry)

/-- The `model.Context`. -/
structure Context where
  XRefTable : XRefTable

/-! ## The filler -/

/-- The struct `FormField`.  `Dict` is the alias of the widget dictionary: the
key of the table entry that holds it. -/
structure FormField where
  ObjectId : Int
  Name : String
  Rect : Rectangle
  «Type» : String
  Dict : Int

/-- The struct `PDFFormFiller`. -/
structure PDFFormFiller where
  ctx : Context
  fieldMapById : List (Int × FormField)
  fieldMapByName : List (String × FormField)

/-- The dictionary a field aliases, read from the table. -/
def dictOf (ctx : Context) (ref : Int) : Option Dict :=
  match mapGet ctx.XRefTable.Table ref with
  | some ⟨some (Object.Dict d)⟩ => some d
  | _ => none

/-- The write `dict[key] = value` on a table entry that holds a dictionary. -/
def entrySet (key : String) (value : Object) (x : XRefTableEntry) : XRefTableEntry :=
  match x.Object with
  | some (Object.Dict d) => ⟨some (Object.Dict (mapSet d key value))⟩
  | _ => x

/-- The write `dict[key] = value` on the dictionary the table holds under `ref`. -/
def tableSet : List (Int × XRefTableEntry) → Int → String → Object → List (Int × XRefTableEntry)
  | [], _, _, _ => []
  | (k, x) :: t, ref, key, value =>
    (k, if k = ref then entrySet key value x else x) :: tableSet t ref key value

/-- The write `formField.Dict[key] = value` through the alias `ref`: the
dictionary of that table entry is updated in place.  An alias always leads to
a dictionary of the table, for `extractFormFields` alone builds a `FormField`
(`extractFormFields_index_sound`); an entry that holds no dictionary is left
as it is. -/
def dictSet (ctx : Context) (ref : Int) (key : String) (value : Object) : Context :=
  ⟨⟨tableSet ctx.XRefTable.Table ref key value⟩⟩

/-! ## Text encoding (Go `unicode/utf8`, `unicode/utf16`, `encoding/hex`, pdfcpu `types`) -/

/-- Go `utf16.EncodeRune` on one code point, as `utf16.Encode` applies it: a
code point below `0x10000` outside the surrogate range is one unit, a code
point up to `0x10FFFF` is a surrogate pair (`r -= 0x10000`, high unit
`0xd800 + (r>>10)&0x3ff`, low unit `0xdc00 + r&0x3ff`), anything else is the
replacement character `U+FFFD`. -/
def utf16EncodeRune (v : Nat) : List Nat :=
  if v < 0xd800 ∨ (0xe000 ≤ v ∧ v < 0x10000) then [v]
  else if 0x10000 ≤ v ∧ v ≤ 0x10FFFF then
    [0xd800 + ((v - 0x10000) / 1024) % 1024, 0xdc00 + (v - 0x10000) % 1024]
  else [0xFFFD]

/-- Go `utf16.Encode`. -/
def utf16Encode (rr : List Nat) : List Nat :=
  rr.flatMap utf16EncodeRune

/-- Go `utf16.Decode`: a unit outside the surrogate range is a code point, a
high surrogate followed by a low surrogate is the pair's code point, any other
unit is the replacement character. -/
def utf16Decode : List Nat → List Nat
  | [] => []
  | [r] => if r < 0xd800 ∨ 0xe000 ≤ r then [r] else [0xFFFD]
  | r :: s :: rest =>
    if r < 0xd800 ∨ 0xe000 ≤ r then r :: utf16Decode (s :: rest)
    else if 0xd800 ≤ r ∧ r < 0xdc00 ∧ 0xdc00 ≤ s ∧ s < 0xe000 then
      ((r - 0xd800) * 1024 + (s - 0xdc00) + 0x10000) :: utf16Decode rest
    else 0xFFFD :: utf16Decode (s :: rest)

/-- A Go `string` as the program holds it: a sequence of bytes, which need not
be well-formed UTF-8.  A byte is a number below 256; no definition below
relies on the bound. -/
abbrev GoString := List Nat

/-- Go `utf8.DecodeRuneInString`: the rune at the head of the string and the
number of bytes it takes.  A byte that starts no well-formed encoding (a
continuation byte, `C0`, `C1`, `F5` and above, a truncated or overlong
sequence, an encoded surrogate or a value above `10FFFF`) is the replacement
character `U+FFFD` of width 1. -/
def utf8DecodeRune : GoString → Nat × Nat
  | [] => (0xFFFD, 0)
  | s0 :: rest =>
    if s0 < 0x80 then (s0, 1)
    else if s0 < 0xC2 ∨ 0xF4 < s0 then (0xFFFD, 1)
    else
      match rest with
      | [] => (0xFFFD, 1)
      | s1 :: rest1 =>
        if s1 < (if s0 = 0xE0 then 0xA0 else if s0 = 0xF0 then 0x90 else 0x80) ∨
            (if s0 = 0xED then 0x9F else if s0 = 0xF4 then 0x8F else 0xBF) < s1 then (0xFFFD, 1)
        else if s0 < 0xE0 then ((s0 % 32) * 64 + s1 % 64, 2)
        else
          match rest1 with
          | [] => (0xFFFD, 1)
          | s2 :: rest2 =>
            if s2 < 0x80 ∨ 0xBF < s2 then (0xFFFD, 1)
            else if s0 < 0xF0 then ((s0 % 16) * 4096 + (s1 % 64) * 64 + s2 % 64, 3)
            else
              match rest2 with
              | [] => (0xFFFD, 1)
              | s3 :: _ =>
                if s3 < 0x80 ∨ 0xBF < s3 then (0xFFFD, 1)
                else ((s0 % 8) * 262144 + (s1 % 64) * 4096 + (s2 % 64) * 64 + s3 % 64, 4)

/-- The runes of a string from its head on, once `skip` bytes, the rest of the
rune decoded last, are passed over. -/
def runesFrom : Nat → GoString → List Nat
  | _, [] => []
  | 0, b :: rest =>
    (utf8DecodeRune (b :: rest)).1 :: runesFrom ((utf8DecodeRune (b :: rest)).2 - 1) rest
  | skip + 1, _ :: rest => runesFrom skip rest

/-- The conversion `[]rune(s)`: the string decoded rune by rune, every
ill-formed byte giving `U+FFFD`. -/
def runes (s : GoString) : List Nat := runesFrom 0 s

/-- Go `utf8.EncodeRune`: one to four bytes, the encoding of `U+FFFD` for a
surrogate or a value above `10FFFF`. -/
def utf8EncodeRune (r : Nat) : GoString :=
  if r ≤ 0x7F then [r]
  else if r ≤ 0x7FF then [0xC0 + r / 64, 0x80 + r % 64]
  else if 0x10FFFF < r ∨ (0xD800 ≤ r ∧ r ≤ 0xDFFF) then [0xEF, 0xBF, 0xBD]
  else if r ≤ 0xFFFF then [0xE0 + r / 4096, 0x80 + (r / 64) % 64, 0x80 + r % 64]
  else [0xF0 + r / 262144, 0x80 + (r / 4096) % 64, 0x80 + (r / 64) % 64, 0x80 + r % 64]

/-- The conversion `string(runes)`. -/
def stringOfRunes (rr : List Nat) : GoString := rr.flatMap utf8EncodeRune

/-- The Go string of a text: the UTF-8 encoding of its characters.  A Go string
is well-formed UTF-8 exactly when it is the Go string of a text. -/
def goString (text : String) : GoString := stringOfRunes (text.data.map Char.toNat)

/-- The text whose characters are the given runes. -/
def textOfRunes (rr : List Nat) : String := ⟨rr.map Char.ofNat⟩

/-- pdfcpu `types.EncodeUTF16String`: the byte order mark `FE FF`, then every
UTF-16 unit of the text high byte first (`byte(r>>8), byte(r&0xff)`).  The Go
result is a byte string, here the list of its bytes. -/
def EncodeUTF16String (s : GoString) : List Nat :=
  [0xFE, 0xFF] ++ (utf16Encode (runes s)).flatMap (fun r => [(r / 256) % 256, r % 256])

/-- One lower-case hexadecimal digit (`encoding/hex`). -/
def hexDigit (n : Nat) : Char :=
  if n < 10 then Char.ofNat (48 + n) else Char.ofNat (87 + n)

/-- Go `hex.EncodeToString`. -/
def hexEncodeToString (bb : List Nat) : String :=
  ⟨bb.flatMap (fun b => [hexDigit ((b / 16) % 16), hexDigit (b % 16)])⟩

/-- pdfcpu `types.NewHexLiteral`. -/
def NewHexLiteral (bb : List Nat) : Object :=
  Object.HexLiteral (hexEncodeToString bb)

/-- Value of one hexadecimal digit, `none` for any other character. -/
def hexValue (c : Char) : Option Nat :=
  if 48 ≤ c.toNat ∧ c.toNat ≤ 57 then some (c.toNat - 48)
  else if 97 ≤ c.toNat ∧ c.toNat ≤ 102 then some (c.toNat - 87)
  else if 65 ≤ c.toNat ∧ c.toNat ≤ 70 then some (c.toNat - 55)
  else none

/-- Bytes spelled by a string of hexadecimal digit pairs (`hex.DecodeString`). -/
def hexDecode : List Char → Option (List Nat)
  | [] => some []
  | [_] => none
  | a :: b :: rest =>
    match hexValue a, hexValue b, hexDecode rest with
    | some x, some y, some bb => some ((x * 16 + y) :: bb)
    | _, _, _ => none

/-- UTF-16 units of a big-endian byte sequence; `none` on an odd length. -/
def unitsOfBytes : List Nat → Option (List Nat)
  | [] => some []
  | [_] => none
  | hi :: lo :: rest =>
    match unitsOfBytes rest with
    | some uu => some ((hi * 256 + lo) :: uu)
    | none => none

/-- The runes a hex literal spells: the digits spell bytes, the bytes start
with the byte order mark `FE FF`, the remaining bytes are UTF-16 units, and
the units decode to runes. -/
def decodeUTF16Runes (o : Object) : Option (List Nat) :=
  match o with
  | Object.HexLiteral h =>
    match hexDecode h.data with
    | some (0xFE :: 0xFF :: bb) =>
      match unitsOfBytes bb with
      | some uu => some (utf16Decode uu)
      | none => none
    | _ => none
  | _ => none

/-- Reading a text value back from a hex literal, as a Go string. -/
def decodeUTF16HexLiteral (o : Object) : Option GoString :=
  (decodeUTF16Runes o).map stringOfRunes

/-- A Unicode scalar value: what a rune of well-formed text is. -/
def IsScalar (v : Nat) : Prop := v < 0xd800 ∨ (0xdfff < v ∧ v < 0x110000)

/-! ## Single-field setters -/

/-- The method `SetTextFieldById`. -/
def SetTextFieldById (r : PDFFormFiller) (objectId : Int) (value : GoString)
    (setReadOnly : Bool) :
    Option Error × PDFFormFiller :=
  let err : Option Error := none
  match mapGet r.fieldMapById objectId with
  | none => (errorsWrapf err ("Can not found objectId " ++ toString objectId), r)
  | some formField =>
    if formField.«Type» ≠ "Tx" then
      (errorsErrorf ("type of field " ++ toString objectId ++ " is " ++ formField.«Type»
        ++ " (expected Tx)"), r)
    else
      let ctx1 := dictSet r.ctx formField.Dict "V" (NewHexLiteral (EncodeUTF16String value))
      let ctx2 := if setReadOnly then dictSet ctx1 formField.Dict "Ff" (Object.Integer 1) else ctx1
      (none, { r with ctx := ctx2 })

/-- The method `SetTextFieldByName`. -/
def SetTextFieldByName (r : PDFFormFiller) (name : String) (value : GoString)
    (setReadOnly : Bool) :
    Option Error × PDFFormFiller :=
  let err : Option Error := none
  match mapGet r.fieldMapByName name with
  | none => (errorsWrapf err ("Can not found Field: " ++ name), r)
  | some formField => SetTextFieldById r formField.ObjectId value setReadOnly

/-- The method `SetCheckboxFieldById`. -/
def SetCheckboxFieldById (r : PDFFormFiller) (objectId : Int) (value : String)
    (setReadOnly : Bool) : Option Error × PDFFormFiller :=
  let err : Option Error := none
  match mapGet r.fieldMapById objectId with
  | none => (errorsWrapf err ("Can not found objectId " ++ toString objectId), r)
  | some formField =>
    if formField.«Type» ≠ "Btn" then
      (errorsErrorf ("type of field " ++ toString objectId ++ " is " ++ formField.«Type»
        ++ " (expected Btn)"), r)
    else
      let ctx1 := dictSet r.ctx formField.Dict "AS" (Object.Name value)
      let ctx2 := if setReadOnly then dictSet ctx1 formField.Dict "Ff" (Object.Integer 1) else ctx1
      (none, { r with ctx := ctx2 })

/-- The method `SetCheckboxFieldByName`. -/
def SetCheckboxFieldByName (r : PDFFormFiller) (name : String) (value : String)
    (setReadOnly : Bool) : Option Error × PDFFormFiller :=
  let err : Option Error := none
  match mapGet r.fieldMapByName name with
  | none => (errorsWrapf err ("Can not found Field: " ++ name), r)
  | some formField => SetCheckboxFieldById r formField.ObjectId value setReadOnly

/-! ## Batch fill -/

/-- A value of the `Form` map (`interface{}`): a string, a bool, or a value of
any other dynamic type, kept as its `%v` rendering. -/
inductive Value where
  | string (str : GoString)
  | bool (boolean : Bool)
  | other (rendering : String)

/-- What `Fill` leaves behind: the Go result, the filler, the lines printed. -/
structure FillResult where
  err : Option Error
  filler : PDFFormFiller
  printed : List String

/-- The method `Fill`; `form` lists the entries in the order `range` visits them. -/
def Fill (r : PDFFormFiller) (form : List (String × Value)) (readOnly : Bool) : FillResult :=
  match form with
  | [] => ⟨none, r, []⟩
  | (key, Value.string str) :: rest =>
    match SetTextFieldByName r key str readOnly with
    | (some err, r1) => ⟨some err, r1, []⟩
    | (none, r1) => Fill r1 rest readOnly
  | (key, Value.bool boolean) :: rest =>
    let va := if boolean then "1" else "0"
    match SetCheckboxFieldByName r key va readOnly with
    | (some err, r1) => ⟨some err, r1, []⟩
    | (none, r1) => Fill r1 rest readOnly
  | (key, Value.other v) :: rest =>
    let res := Fill r rest readOnly
    { res with printed := ("Key: " ++ key ++ ", Value: " ++ v ++ " (unknown type)\n") :: res.printed }

/-- The setter call `Fill` makes for one entry of the form; an entry of another
type makes none. -/
def applyEntry (r : PDFFormFiller) (e : String × Value) (readOnly : Bool) :
    Option Error × PDFFormFiller :=
  match e.2 with
  | Value.string str => SetTextFieldByName r e.1 str readOnly
  | Value.bool boolean => SetCheckboxFieldByName r e.1 (if boolean then "1" else "0") readOnly
  | Value.other _ => (none, r)

/-- The entries applied one after the other, each to the filler the previous
one left: the final filler when every call succeeds, `none` as soon as one fails. -/
def applyAll (r : PDFFormFiller) (form : List (String × Value)) (readOnly : Bool) :
    Option PDFFormFiller :=
  match form with
  | [] => some r
  | e :: rest =>
    match applyEntry r e readOnly with
    | (none, r1) => applyAll r1 rest readOnly
    | (some _, _) => none

/-! ## The pdfcpu entry points -/

/-- The `types.DisplayUnit` values. -/
inductive DisplayUnit where
  | POINTS
  | INCHES
  | CENTIMETRES
  | MILLIMETRES

/-- The pdfcpu functions the filler calls and whose code is not part of the
repository.  Each is taken as given: a Go result `(x, error)` is an `Except`,
a call that may panic returns an `Outcome`, and `AddWatermarks`, which works
on the context in place, returns the context it leaves. -/
structure Pdfcpu where
  Watermark : Type
  Read : List Nat → Except Error Context
  ValidateXRefTable : XRefTable → Option Error
  HexLiteralToString : String → Except Error String
  RectForArray : Context → Option (List Object) → Outcome (Except Error Rectangle)
  ImageWatermarkForReader : List Nat → String → Bool → Bool → DisplayUnit → Except Error Watermark
  AddWatermarks : Context → List Int → Watermark → Option Error × Context

/-! ## Building the field index -/

/-- What one round of the loop of `extractFormFields` does with a table entry. -/
inductive Scan where
  | skip
  | add (field : FormField)
  | fail (err : Error)
  | panic (msg : String)

/-- The name of a widget and the error of its decoding, read from its `T`
entry (`dict["T"]`, `nil` when the key is absent): a hex literal is decoded, a
string literal is taken as it is, anything else panics. -/
def decodeT (lib : Pdfcpu) (dict : Dict) : Outcome (String × Option Error) :=
  match mapGet dict "T" with
  | some (Object.HexLiteral dictTHexLiteral) =>
    match lib.HexLiteralToString dictTHexLiteral with
    | .error err => .returned ("", errorsWrapf (some err) "Decode T attribute of form field failed")
    | .ok name => .returned (name, none)
  | some (Object.StringLiteral dictTStringLiteral) => .returned (dictTStringLiteral, none)
  | _ => .panicked "dict os not HexLiteral and not StringLiteral"

/-- The body of the loop of `extractFormFields` for the entry `objectId, item`. -/
def scanEntry (lib : Pdfcpu) (ctx : Context) (objectId : Int) (item : XRefTableEntry) : Scan :=
  match item.Object with
  | some (Object.Dict dict) =>
    match Dict.Find dict "Subtype" with
    | none => .skip
    | some subtype =>
      if Object.String subtype ≠ "Widget" then .skip
      else
        match Dict.Find dict "FT" with
        | none => .skip
        | some fieldType =>
          match decodeT lib dict with
          | .panicked msg => .panic msg
          | .returned (_, some err) => .fail err
          | .returned (name, none) =>
            match lib.RectForArray ctx (Dict.ArrayEntry dict "Rect") with
            | .panicked msg => .panic msg
            | .returned (.error err) => .fail err
            | .returned (.ok bb) =>
              .add { ObjectId := objectId, Name := name, «Type» := Object.String fieldType,
                     Rect := bb, Dict := objectId }
  | _ => .skip

/-- The loop of `extractFormFields` over the entries still to visit. -/
def extractLoop (lib : Pdfcpu) :
    List (Int × XRefTableEntry) → PDFFormFiller → Outcome (Option Error × PDFFormFiller)
  | [], r => .returned (none, r)
  | (objectId, item) :: rest, r =>
    match scanEntry lib r.ctx objectId item with
    | .skip => extractLoop lib rest r
    | .panic msg => .panicked msg
    | .fail err => .returned (some err, r)
    | .add field =>
      extractLoop lib rest
        { r with fieldMapById := mapSet r.fieldMapById objectId field,
                 fieldMapByName := mapSet r.fieldMapByName field.Name field }

/-- The method `extractFormFields`. -/
def extractFormFields (lib : Pdfcpu) (r : PDFFormFiller) : Outcome (Option Error × PDFFormFiller) :=
  extractLoop lib r.ctx.XRefTable.Table r

/-- The function `NewPDFFormFiller`: `nil` with the error when reading,
validating or indexing fails. -/
def NewPDFFormFiller (lib : Pdfcpu) (template : List Nat) :
    Outcome (Option PDFFormFiller × Option Error) :=
  match lib.Read template with
  | .error err => .returned (none, some err)
  | .ok ctx =>
    match lib.ValidateXRefTable ctx.XRefTable with
    | some err => .returned (none, some err)
    | none =>
      let render : PDFFormFiller := { ctx := ctx, fieldMapById := [], fieldMapByName := [] }
      match extractFormFields lib render with
      | .panicked msg => .panicked msg
      | .returned (some err, _) => .returned (none, some err)
      | .returned (none, r) => .returned (some r, none)

/-! ## The widgets the index keeps -/

/-- The dictionary of a table entry the scan keeps: a dictionary whose
`Subtype` is `Widget` and which has an `FT` entry. -/
def keptDict (item : XRefTableEntry) : Option Dict :=
  match item.Object with
  | some (Object.Dict dict) =>
    match Dict.Find dict "Subtype", Dict.Find dict "FT" with
    | some subtype, some _ => if Object.String subtype = "Widget" then some dict else none
    | _, _ => none
  | _ => none

/-- The kept widgets of a table, in scan order, each with its object number. -/
def keptWidgets (t : List (Int × XRefTableEntry)) : List (Int × Dict) :=
  t.filterMap (fun e => (keptDict e.2).map (fun d => (e.1, d)))

/-- The name a widget carries when it can be decoded: its `T` entry is a string
literal, or a hex literal the library decodes. -/
def widgetName (lib : Pdfcpu) (dict : Dict) : Option String :=
  match mapGet dict "T" with
  | some (Object.HexLiteral h) =>
    match lib.HexLiteralToString h with
    | .ok name => some name
    | .error _ => none
  | some (Object.StringLiteral s) => some s
  | _ => none

/-- The rectangle of a widget when the library accepts its `Rect` entry. -/
def widgetRect (lib : Pdfcpu) (ctx : Context) (dict : Dict) : Option Rectangle :=
  match lib.RectForArray ctx (Dict.ArrayEntry dict "Rect") with
  | .returned (.ok bb) => some bb
  | _ => none

/-- The index entry of a kept widget with a decodable name and an accepted rectangle. -/
def fieldOfWidget (lib : Pdfcpu) (ctx : Context) (w : Int × Dict) : Option FormField :=
  match Dict.Find w.2 "FT", widgetName lib w.2, widgetRect lib ctx w.2 with
  | some fieldType, some name, some bb =>
    some { ObjectId := w.1, Name := name, Rect := bb, «Type» := Object.String fieldType,
           Dict := w.1 }
  | _, _, _ => none

/-- One entry added to both maps of the index. -/
def indexField (r : PDFFormFiller) (field : FormField) : PDFFormFiller :=
  { r with fieldMapById := mapSet r.fieldMapById field.ObjectId field,
           fieldMapByName := mapSet r.fieldMapByName field.Name field }

/-- The keys of a map. -/
def mapKeys {κ α : Type} (m : List (κ × α)) : List κ := m.map Prod.fst

/-! ## Overlays -/

/-- The conversion `int(x)` of a `float64`: truncation toward zero. -/
def truncToInt (x : ℚ) : Int :=
  Int.tdiv x.num x.den

/-- The method `AddImage`.  The parameters `w` and `h` are not read. -/
def AddImage (lib : Pdfcpu) (r : PDFFormFiller) (page : Int) (image : List Nat)
    (x y _w _h : Int) (scale : ℚ) : Option Error × PDFFormFiller :=
  let pages : List Int := [page]
  let descriptionString :=
    "pos:bl, rot: 0, sc: " ++ formatFixed 4 scale ++ " abs, off: " ++ toString x ++ " " ++ toString y
  match lib.ImageWatermarkForReader image descriptionString true false DisplayUnit.POINTS with
  | .error err => (errorsWrapf (some err) "Build ImageWatermark failed", r)
  | .ok wm =>
    match lib.AddWatermarks r.ctx pages wm with
    | (some err, ctx1) => (errorsWrapf (some err) "Add ImageWatermark failed", { r with ctx := ctx1 })
    | (none, ctx1) => (none, { r with ctx := ctx1 })

/-- The method `AddImageOverObjectById`. -/
def AddImageOverObjectById (lib : Pdfcpu) (r : PDFFormFiller) (objectId : Int) (image : List Nat) :
    Option Error × PDFFormFiller :=
  let err : Option Error := none
  match mapGet r.fieldMapById objectId with
  | none => (errorsWrapf err ("Can not found objectId " ++ toString objectId), r)
  | some formField =>
    AddImage lib r 1 image (truncToInt formField.Rect.LL.X) (truncToInt formField.Rect.LL.Y)
      (truncToInt formField.Rect.Width) (truncToInt formField.Rect.Height) 1

/-- The method `AddImageOverObjectByName`. -/
def AddImageOverObjectByName (lib : Pdfcpu) (r : PDFFormFiller) (name : String)
    (image : List Nat) : Option Error × PDFFormFiller :=
  let err : Option Error := none
  match mapGet r.fieldMapByName name with
  | none => (errorsWrapf err ("Can not found Field: " ++ name), r)
  | some formField => AddImageOverObjectById lib r formField.ObjectId image

/-! ## A concrete document -/

/-- The value of a numeric object. -/
def numberOf (o : Object) : Option ℚ :=
  match o with
  | Object.Integer n => some n
  | Object.Float f => some f
  | _ => none

/-- An instance of the library interface for evaluating the filler on concrete
tables: names decode as UTF-16 hex literals, a rectangle is an array of four
numbers, and the watermark layer records the description and the pages it is
given in a new object, numbered 1000. -/
def pdfcpuExample : Pdfcpu where
  Watermark := String
  Read := fun _ => .error "not a PDF"
  ValidateXRefTable := fun _ => none
  HexLiteralToString := fun h =>
    match decodeUTF16Runes (Object.HexLiteral h) with
    | some rr => .ok (textOfRunes rr)
    | none => .error "invalid hex literal"
  RectForArray := fun _ a =>
    match a with
    | some [o1, o2, o3, o4] =>
      match numberOf o1, numberOf o2, numberOf o3, numberOf o4 with
      | some llx, some lly, some urx, some ury => .returned (.ok ⟨⟨llx, lly⟩, ⟨urx, ury⟩⟩)
      | _, _, _, _ => .returned (.error "not a number")
    | _ => .panicked "index out of range"
  ImageWatermarkForReader := fun _ desc _ _ _ => .ok desc
  AddWatermarks := fun ctx pages wm =>
    (none, ⟨⟨ctx.XRefTable.Table ++ [(1000, ⟨some (Object.Dict
      [("Watermark", Object.StringLiteral wm), ("Pages", Object.Array (pages.map Object.Integer))])⟩)]⟩⟩)

/-- A widget dictionary with the given field type, name literal, rectangle and more entries. -/
def widgetDict (ft : String) (t : Object) (rect : List Int) (more : Dict) : Dict :=
  [("Subtype", Object.Name "Widget"), ("FT", Object.Name ft), ("T", t),
    ("Rect", Object.Array (rect.map Object.Integer))] ++ more

/-- The table entry that holds a widget dictionary. -/
def widget (ft : String) (t : Object) (rect : List Int) (more : Dict) : XRefTableEntry :=
  ⟨some (Object.Dict (widgetDict ft t rect more))⟩

/-- A table of two widgets, the second without a name. -/
def namelessTable : List (Int × XRefTableEntry) :=
  [ (1, widget "Tx" (Object.StringLiteral "a") [0, 0, 10, 10] []),
    (2, ⟨some (Object.Dict [("Subtype", Object.Name "Widget"), ("FT", Object.Name "Tx"),
        ("Rect", Object.Array ([0, 20, 10, 30].map Object.Integer))])⟩) ]

/-- A table of two widgets, the second with a name that is no hex string. -/
def undecodableTable : List (Int × XRefTableEntry) :=
  [ (1, widget "Tx" (Object.StringLiteral "a") [0, 0, 10, 10] []),
    (2, widget "Tx" (Object.HexLiteral "zz") [0, 20, 10, 30] []) ]

/-- A table in which the widgets 5 and 9 share the name `dup`; between them
comes a check box, before them a page object. -/
def dupTable : List (Int × XRefTableEntry) :=
  [ (3, ⟨some (Object.Dict [("Type", Object.Name "Page")])⟩),
    (5, widget "Tx" (Object.StringLiteral "dup") [0, 0, 10, 10] []),
    (7, widget "Btn" (Object.StringLiteral "box") [0, 20, 10, 30] []),
    (9, widget "Tx" (Object.HexLiteral "feff006400750070") [0, 40, 10, 50] []) ]

/-- A document in the shape of the form the tests fill: a catalog, a text field
`f_2[0]` flagged multiline (`Ff` bit 13), a check box `c1_02[0]` flagged
required (`Ff` bit 2) whose appearance dictionary offers the states `1` and
`Off`, and a text field `Date[0]`. -/
def docTable : List (Int × XRefTableEntry) :=
  [ (1, ⟨some (Object.Dict [("Type", Object.Name "Catalog")])⟩),
    (302, widget "Tx" (Object.StringLiteral "f_2[0]") [100, 700, 300, 720]
      [("Ff", Object.Integer 4096)]),
    (312, widget "Btn" (Object.StringLiteral "c1_02[0]") [100, 650, 110, 660]
      [("AP", Object.Dict [("N", Object.Dict [("1", Object.IndirectRef 400 0),
          ("Off", Object.IndirectRef 401 0)])]),
       ("AS", Object.Name "Off"), ("Ff", Object.Integer 2)]),
    (323, widget "Tx" (Object.StringLiteral "Date[0]") [400, 100, 600, 150] []) ]

/-- The multiline text field of `docTable`. -/
def docField302 : FormField :=
  { ObjectId := 302, Name := "f_2[0]", Rect := ⟨⟨100, 700⟩, ⟨300, 720⟩⟩, «Type» := "Tx", Dict := 302 }

/-- The check box of `docTable`. -/
def docField312 : FormField :=
  { ObjectId := 312, Name := "c1_02[0]", Rect := ⟨⟨100, 650⟩, ⟨110, 660⟩⟩, «Type» := "Btn",
    Dict := 312 }

/-- The date field of `docTable`. -/
def docField323 : FormField :=
  { ObjectId := 323, Name := "Date[0]", Rect := ⟨⟨400, 100⟩, ⟨600, 150⟩⟩, «Type» := "Tx",
    Dict := 323 }

/-- The filler `extractFormFields` builds for `docTable` (`extractFormFields_docTable`). -/
def docFiller : PDFFormFiller :=
  { ctx := ⟨⟨docTable⟩⟩,
    fieldMapById := [(323, docField323), (312, docField312), (302, docField302)],
    fieldMapByName := [("Date[0]", docField323), ("c1_02[0]", docField312),
      ("f_2[0]", docField302)] }

/-! ## Facts about maps and dictionary writes -/

theorem mapGet_mapErase_self {κ α : Type} [DecidableEq κ] (m : List (κ × α)) (k : κ) :
    mapGet (mapErase m k) k = none := by
  induction m with
  | nil => rfl
  | cons e m ih =>
    obtain ⟨a, b⟩ := e
    by_cases hak : a = k <;> simp [mapErase, mapGet, hak, ih]

theorem mapGet_mapErase_ne {κ α : Type} [DecidableEq κ] (m : List (κ × α)) (k k' : κ)
    (h : k' ≠ k) : mapGet (mapErase m k) k' = mapGet m k' := by
  induction m with
  | nil => rfl
  | cons e m ih =>
    obtain ⟨a, b⟩ := e
    by_cases hak : a = k
    · have hne : ¬ a = k' := fun h' => h (h'.symm.trans hak)
      rw [mapErase, if_pos hak, ih, mapGet, if_neg hne]
    · rw [mapErase, if_neg hak, mapGet, mapGet, ih]

theorem mapGet_mapSet_self {κ α : Type} [DecidableEq κ] (m : List (κ × α)) (k : κ) (v : α) :
    mapGet (mapSet m k v) k = some v := by
  simp [mapSet, mapGet]

theorem mapGet_mapSet_ne {κ α : Type} [DecidableEq κ] (m : List (κ × α)) (k k' : κ) (v : α)
    (h : k' ≠ k) : mapGet (mapSet m k v) k' = mapGet m k' := by
  have hne : ¬ k = k' := fun h' => h h'.symm
  simp [mapSet, mapGet, hne, mapGet_mapErase_ne m k k' h]

theorem mapErase_of_not_mem {κ α : Type} [DecidableEq κ] (m : List (κ × α)) (k : κ)
    (h : k ∉ mapKeys m) : mapErase m k = m := by
  induction m with
  | nil => rfl
  | cons e m ih =>
    obtain ⟨a, b⟩ := e
    simp only [mapKeys, List.map_cons, List.mem_cons, not_or] at h
    have hne : ¬ a = k := fun h' => h.1 h'.symm
    rw [mapErase, if_neg hne, ih h.2]

theorem mapGet_of_mem_nodup {κ α : Type} [DecidableEq κ] (m : List (κ × α)) (k : κ) (v : α)
    (hnd : (m.map Prod.fst).Nodup) (h : (k, v) ∈ m) : mapGet m k = some v := by
  induction m with
  | nil => simp at h
  | cons e m ih =>
    obtain ⟨a, b⟩ := e
    rw [List.map_cons, List.nodup_cons] at hnd
    rcases List.mem_cons.mp h with h1 | h1
    · simp only [Prod.mk.injEq] at h1
      obtain ⟨rfl, rfl⟩ := h1
      simp [mapGet]
    · have hne : ¬ a = k := by
        intro heq
        subst heq
        have hm : (a, v).1 ∈ m.map Prod.fst := List.mem_map_of_mem Prod.fst h1
        exact hnd.1 hm
      rw [mapGet, if_neg hne]
      exact ih hnd.2 h1

theorem length_foldl_mapSet {κ α : Type} [DecidableEq κ] (key : α → κ) (fs : List α) :
    ∀ m : List (κ × α), (fs.map key).Nodup → (∀ f ∈ fs, key f ∉ mapKeys m) →
      (fs.foldl (fun m f => mapSet m (key f) f) m).length = m.length + fs.length := by
  induction fs with
  | nil => intro m _ _; rfl
  | cons f fs ih =>
    intro m hnd hnot
    rw [List.map_cons, List.nodup_cons] at hnd
    have hf : key f ∉ mapKeys m := hnot f (List.mem_cons_self _ _)
    have hset : mapSet m (key f) f = (key f, f) :: m := by
      rw [mapSet, mapErase_of_not_mem m (key f) hf]
    rw [List.foldl_cons, hset, ih _ hnd.2]
    · simp only [List.length_cons]; omega
    · intro g hg
      simp only [mapKeys, List.map_cons, List.mem_cons, not_or]
      refine ⟨?_, hnot g (List.mem_cons_of_mem _ hg)⟩
      intro heq
      exact hnd.1 (heq ▸ List.mem_map_of_mem key hg)

theorem mapGet_foldl_mapSet_ne {κ α : Type} [DecidableEq κ] (key : α → κ) (k : κ)
    (fs : List α) :
    ∀ m : List (κ × α), (∀ f ∈ fs, key f ≠ k) →
      mapGet (fs.foldl (fun m f => mapSet m (key f) f) m) k = mapGet m k := by
  induction fs with
  | nil => intro m _; rfl
  | cons f fs ih =>
    intro m h
    rw [List.foldl_cons, ih _ (fun g hg => h g (List.mem_cons_of_mem _ hg)),
      mapGet_mapSet_ne _ _ _ _ (fun h' => h f (List.mem_cons_self _ _) h'.symm)]

theorem mapGet_foldl_mapSet_last {κ α : Type} [DecidableEq κ] (key : α → κ)
    (pre post : List α) (f : α) (m : List (κ × α)) (h : ∀ g ∈ post, key g ≠ key f) :
    mapGet ((pre ++ f :: post).foldl (fun m f => mapSet m (key f) f) m) (key f) = some f := by
  rw [List.foldl_append, List.foldl_cons, mapGet_foldl_mapSet_ne key (key f) post _ h,
    mapGet_mapSet_self]

theorem mapGet_foldl_mapSet_mem {κ α : Type} [DecidableEq κ] (key : α → κ) (fs : List α) :
    ∀ (m : List (κ × α)) (k : κ) (v : α),
      mapGet (fs.foldl (fun m f => mapSet m (key f) f) m) k = some v →
      (v ∈ fs ∧ key v = k) ∨ mapGet m k = some v := by
  induction fs with
  | nil => intro m k v h; exact Or.inr h
  | cons f fs ih =>
    intro m k v h
    rw [List.foldl_cons] at h
    rcases ih _ k v h with ⟨hv, hk⟩ | h1
    · exact Or.inl ⟨List.mem_cons_of_mem _ hv, hk⟩
    · by_cases hkf : k = key f
      · subst hkf
        rw [mapGet_mapSet_self] at h1
        have : f = v := Option.some.inj h1
        subst this
        exact Or.inl ⟨List.mem_cons_self _ _, rfl⟩
      · rw [mapGet_mapSet_ne _ _ _ _ hkf] at h1
        exact Or.inr h1

theorem mapGet_dictSet (ctx : Context) (ref id : Int) (key : String) (value : Object) :
    mapGet (dictSet ctx ref key value).XRefTable.Table id =
      if id = ref then (mapGet ctx.XRefTable.Table id).map (entrySet key value)
      else mapGet ctx.XRefTable.Table id := by
  obtain ⟨⟨t⟩⟩ := ctx
  simp only [dictSet]
  induction t with
  | nil => simp [tableSet, mapGet]
  | cons e t ih =>
    obtain ⟨k, x⟩ := e
    rw [tableSet, mapGet, mapGet, ih]
    by_cases hk : k = id
    · subst hk
      by_cases hr : k = ref <;> simp [hr]
    · simp [hk]

theorem table_dictSet_ne (ctx : Context) (ref id : Int) (key : String) (value : Object)
    (h : id ≠ ref) :
    mapGet (dictSet ctx ref key value).XRefTable.Table id = mapGet ctx.XRefTable.Table id := by
  rw [mapGet_dictSet, if_neg h]

theorem dictOf_dictSet_ne (ctx : Context) (ref id : Int) (key : String) (value : Object)
    (h : id ≠ ref) : dictOf (dictSet ctx ref key value) id = dictOf ctx id := by
  simp [dictOf, table_dictSet_ne ctx ref id key value h]

theorem dictOf_dictSet_self (ctx : Context) (ref : Int) (key : String) (value : Object)
    (d : Dict) (h : dictOf ctx ref = some d) :
    dictOf (dictSet ctx ref key value) ref = some (mapSet d key value) := by
  unfold dictOf at *
  rw [mapGet_dictSet, if_pos rfl]
  cases hg : mapGet ctx.XRefTable.Table ref with
  | none => simp [hg] at h
  | some x =>
    obtain ⟨o⟩ := x
    rw [hg] at h
    cases o with
    | none => simp at h
    | some ob =>
      cases ob <;> simp at h
      subst h
      simp [entrySet]

/-- What the two writes of a successful setter leave in the table. -/
theorem write_effect (ctx : Context) (ref : Int) (key : String) (v : Object) (ro : Bool)
    (d : Dict) (hd : dictOf ctx ref = some d) (hk : key ≠ "Ff") :
    ∃ d', dictOf (if ro = true then dictSet (dictSet ctx ref key v) ref "Ff" (Object.Integer 1)
              else dictSet ctx ref key v) ref = some d' ∧
      Dict.Find d' key = some v ∧
      (∀ k, k ≠ key → k ≠ "Ff" → Dict.Find d' k = Dict.Find d k) ∧
      Dict.Find d' "Ff" = (if ro = true then some (Object.Integer 1) else Dict.Find d "Ff") ∧
      (∀ id, id ≠ ref →
        mapGet (if ro = true then dictSet (dictSet ctx ref key v) ref "Ff" (Object.Integer 1)
              else dictSet ctx ref key v).XRefTable.Table id = mapGet ctx.XRefTable.Table id) := by
  have h1 := dictOf_dictSet_self ctx ref key v d hd
  cases ro with
  | false =>
    refine ⟨mapSet d key v, by simpa using h1, mapGet_mapSet_self _ _ _, ?_, ?_, ?_⟩
    · intro k hk1 _
      exact mapGet_mapSet_ne _ _ _ _ hk1
    · simp only [Bool.false_eq_true, if_false]
      exact mapGet_mapSet_ne _ _ _ _ (fun h => hk h.symm)
    · intro id hid
      simpa using table_dictSet_ne ctx ref id key v hid
  | true =>
    have h2 := dictOf_dictSet_self _ ref "Ff" (Object.Integer 1) _ h1
    refine ⟨mapSet (mapSet d key v) "Ff" (Object.Integer 1), by simpa using h2, ?_, ?_, ?_, ?_⟩
    · show mapGet _ key = _
      rw [mapGet_mapSet_ne _ _ _ _ hk, mapGet_mapSet_self]
    · intro k hk1 hk2
      show mapGet _ k = mapGet _ k
      rw [mapGet_mapSet_ne _ _ _ _ hk2, mapGet_mapSet_ne _ _ _ _ hk1]
    · simp only [if_true]
      exact mapGet_mapSet_self _ _ _
    · intro id hid
      simp only [if_true]
      rw [table_dictSet_ne _ ref id _ _ hid, table_dictSet_ne _ ref id _ _ hid]

/-! ## The text encoding reads back -/

theorem hexValue_hexDigit (n : Nat) (h : n < 16) : hexValue (hexDigit n) = some n := by
  interval_cases n <;> rfl

theorem hexDecode_cons2 (x y : Nat) (hx : x < 16) (hy : y < 16) (rest : List Char) :
    hexDecode (hexDigit x :: hexDigit y :: rest) = (hexDecode rest).map (fun bb => (x * 16 + y) :: bb) := by
  rw [hexDecode, hexValue_hexDigit x hx, hexValue_hexDigit y hy]
  cases hexDecode rest <;> rfl

theorem hexDecode_encode (bb : List Nat) :
    hexDecode (hexEncodeToString bb).data = some (bb.map (· % 256)) := by
  induction bb with
  | nil => rfl
  | cons b bb ih =>
    have h : (hexEncodeToString (b :: bb)).data =
        hexDigit ((b / 16) % 16) :: hexDigit (b % 16) :: (hexEncodeToString bb).data := by
      simp [hexEncodeToString]
    rw [h, hexDecode_cons2 _ _ (Nat.mod_lt _ (by norm_num)) (Nat.mod_lt _ (by norm_num)), ih]
    have : b / 16 % 16 * 16 + b % 16 = b % 256 := by omega
    simp [this]

theorem unitsOfBytes_encode (uu : List Nat) :
    unitsOfBytes (uu.flatMap (fun r => [(r / 256) % 256, r % 256])) = some (uu.map (· % 65536)) := by
  induction uu with
  | nil => rfl
  | cons u uu ih =>
    have h : (u :: uu).flatMap (fun r => [(r / 256) % 256, r % 256]) =
        (u / 256) % 256 :: u % 256 :: uu.flatMap (fun r => [(r / 256) % 256, r % 256]) := by
      simp
    rw [h, unitsOfBytes, ih]
    have : u / 256 % 256 * 256 + u % 256 = u % 65536 := by omega
    simp [this]

theorem utf16EncodeRune_lt (v u : Nat) (h : u ∈ utf16EncodeRune v) : u < 65536 := by
  unfold utf16EncodeRune at h
  split_ifs at h with h1 h2
  · simp at h; omega
  · simp at h; omega
  · simp at h; omega

theorem utf16Decode_encodeRune (v : Nat) (hv : IsScalar v) (rest : List Nat) :
    utf16Decode (utf16EncodeRune v ++ rest) = v :: utf16Decode rest := by
  unfold IsScalar at hv
  unfold utf16EncodeRune
  split_ifs with h1 h2
  · cases rest with
    | nil =>
      have : v < 0xd800 ∨ 0xe000 ≤ v := by omega
      simp [utf16Decode, this]
    | cons s rest =>
      have : v < 0xd800 ∨ 0xe000 ≤ v := by omega
      simp only [List.cons_append, List.nil_append, utf16Decode, this, if_true]
  · simp only [List.cons_append, List.nil_append, utf16Decode]
    rw [if_neg (by omega), if_pos (by omega)]
    congr 1
    omega
  · omega

theorem utf16Decode_encode (rr : List Nat) (h : ∀ v ∈ rr, IsScalar v) :
    utf16Decode (utf16Encode rr) = rr := by
  induction rr with
  | nil => rfl
  | cons v rr ih =>
    simp only [utf16Encode, List.flatMap_cons]
    rw [utf16Decode_encodeRune v (h v (List.mem_cons_self _ _))]
    congr 1
    exact ih (fun v hv => h v (List.mem_cons_of_mem _ hv))

theorem isScalar_toNat (c : Char) : IsScalar c.toNat := by
  have := c.valid
  simp only [UInt32.isValidChar, Nat.isValidChar] at this
  exact this

theorem runesFrom_zero_cons (b : Nat) (rest : GoString) (v size : Nat)
    (h : utf8DecodeRune (b :: rest) = (v, size)) :
    runesFrom 0 (b :: rest) = v :: runesFrom (size - 1) rest := by
  rw [runesFrom, h]

/-- Decoding reads the encoding of a scalar value back, whatever follows it. -/
theorem runesFrom_encodeRune (v : Nat) (hv : IsScalar v) (rest : GoString) :
    runesFrom 0 (utf8EncodeRune v ++ rest) = v :: runesFrom 0 rest := by
  unfold IsScalar at hv
  unfold utf8EncodeRune
  split_ifs with h1 h2 h3 h4
  · have : utf8DecodeRune (v :: rest) = (v, 1) := by
      simp only [utf8DecodeRune]
      rw [if_pos (by omega)]
    exact runesFrom_zero_cons _ _ _ _ this
  · have : utf8DecodeRune ((0xC0 + v / 64) :: (0x80 + v % 64) :: rest) = (v, 2) := by
      simp only [utf8DecodeRune]
      rw [if_neg (by omega), if_neg (by omega), if_neg (by split_ifs <;> omega), if_pos (by omega)]
      congr 1
      omega
    exact runesFrom_zero_cons _ _ _ _ this
  · omega
  · have : utf8DecodeRune ((0xE0 + v / 4096) :: (0x80 + (v / 64) % 64) :: (0x80 + v % 64) :: rest) =
        (v, 3) := by
      simp only [utf8DecodeRune]
      rw [if_neg (by omega), if_neg (by omega), if_neg (by split_ifs <;> omega), if_neg (by omega),
        if_neg (by omega), if_pos (by omega)]
      congr 1
      omega
    exact runesFrom_zero_cons _ _ _ _ this
  · have : utf8DecodeRune ((0xF0 + v / 262144) :: (0x80 + (v / 4096) % 64) ::
        (0x80 + (v / 64) % 64) :: (0x80 + v % 64) :: rest) = (v, 4) := by
      simp only [utf8DecodeRune]
      rw [if_neg (by omega), if_neg (by omega), if_neg (by split_ifs <;> omega), if_neg (by omega),
        if_neg (by omega), if_neg (by omega), if_neg (by omega)]
      congr 1
      omega
    exact runesFrom_zero_cons _ _ _ _ this

theorem runes_stringOfRunes (rr : List Nat) (h : ∀ v ∈ rr, IsScalar v) :
    runes (stringOfRunes rr) = rr := by
  induction rr with
  | nil => rfl
  | cons v rr ih =>
    simp only [runes, stringOfRunes, List.flatMap_cons] at ih ⊢
    rw [runesFrom_encodeRune v (h v (List.mem_cons_self _ _))]
    congr 1
    exact ih (fun v hv => h v (List.mem_cons_of_mem _ hv))

/-- The runes of a well-formed string are the characters of its text. -/
theorem runes_goString (text : String) : runes (goString text) = text.data.map Char.toNat := by
  apply runes_stringOfRunes
  intro v hv
  simp only [List.mem_map] at hv
  obtain ⟨c, _, rfl⟩ := hv
  exact isScalar_toNat c

/-- Whatever the bytes, the rune decoded at the head of a string is a scalar value. -/
theorem utf8DecodeRune_scalar (s : GoString) : IsScalar (utf8DecodeRune s).1 := by
  unfold IsScalar
  match s with
  | [] => simp [utf8DecodeRune]
  | s0 :: rest =>
    by_cases h0 : s0 < 0x80
    · simp only [utf8DecodeRune, if_pos h0]; omega
    by_cases h1 : s0 < 0xC2 ∨ 0xF4 < s0
    · simp only [utf8DecodeRune, if_neg h0, if_pos h1]; omega
    match rest with
    | [] => simp only [utf8DecodeRune, if_neg h0, if_neg h1]; omega
    | s1 :: rest1 =>
      by_cases h2 : s1 < (if s0 = 0xE0 then 0xA0 else if s0 = 0xF0 then 0x90 else 0x80) ∨
            (if s0 = 0xED then 0x9F else if s0 = 0xF4 then 0x8F else 0xBF) < s1
      · simp only [utf8DecodeRune, if_neg h0, if_neg h1, if_pos h2]; omega
      by_cases h3 : s0 < 0xE0
      · simp only [utf8DecodeRune, if_neg h0, if_neg h1, if_neg h2, if_pos h3]; omega
      match rest1 with
      | [] => simp only [utf8DecodeRune, if_neg h0, if_neg h1, if_neg h2, if_neg h3]; omega
      | s2 :: rest2 =>
        by_cases h4 : s2 < 0x80 ∨ 0xBF < s2
        · simp only [utf8DecodeRune, if_neg h0, if_neg h1, if_neg h2, if_neg h3, if_pos h4]; omega
        by_cases h5 : s0 < 0xF0
        · simp only [utf8DecodeRune, if_neg h0, if_neg h1, if_neg h2, if_neg h3, if_neg h4,
            if_pos h5]
          split_ifs at h2 <;> omega
        match rest2 with
        | [] =>
          simp only [utf8DecodeRune, if_neg h0, if_neg h1, if_neg h2, if_neg h3, if_neg h4,
            if_neg h5]; omega
        | s3 :: rest3 =>
          by_cases h6 : s3 < 0x80 ∨ 0xBF < s3
          · simp only [utf8DecodeRune, if_neg h0, if_neg h1, if_neg h2, if_neg h3, if_neg h4,
              if_neg h5, if_pos h6]; omega
          · simp only [utf8DecodeRune, if_neg h0, if_neg h1, if_neg h2, if_neg h3, if_neg h4,
              if_neg h5, if_neg h6]
            split_ifs at h2 <;> omega

theorem runesFrom_scalar (s : GoString) :
    ∀ (skip : Nat), ∀ v ∈ runesFrom skip s, IsScalar v := by
  induction s with
  | nil => intro skip v hv; simp [runesFrom] at hv
  | cons b rest ih =>
    intro skip v hv
    cases skip with
    | zero =>
      rw [runesFrom, List.mem_cons] at hv
      rcases hv with hv | hv
      · rw [hv]; exact utf8DecodeRune_scalar _
      · exact ih _ v hv
    | succ k =>
      rw [runesFrom] at hv
      exact ih k v hv

theorem map_mod_eq_self (n : Nat) (l : List Nat) (h : ∀ u ∈ l, u < n) :
    l.map (· % n) = l := by
  induction l with
  | nil => rfl
  | cons a l ih =>
    rw [List.map_cons, ih (fun u hu => h u (List.mem_cons_of_mem _ hu)),
      Nat.mod_eq_of_lt (h a (List.mem_cons_self _ _))]

theorem EncodeUTF16String_lt (s : GoString) (b : Nat) (h : b ∈ EncodeUTF16String s) : b < 256 := by
  simp only [EncodeUTF16String, List.mem_append, List.mem_cons, List.mem_flatMap,
    List.mem_singleton, List.not_mem_nil, or_false] at h
  rcases h with (h | h) | ⟨r, _, h | h⟩
  · omega
  · omega
  · rw [h]; exact Nat.mod_lt _ (by norm_num)
  · rw [h]; exact Nat.mod_lt _ (by norm_num)

/-- The hex literal the setter writes reads back as `string([]rune(s))`: the
string itself with every ill-formed byte replaced by `U+FFFD`. -/
theorem decode_encode (s : GoString) :
    decodeUTF16HexLiteral (NewHexLiteral (EncodeUTF16String s)) =
      some (stringOfRunes (runes s)) := by
  have hmap : (utf16Encode (runes s)).map (· % 65536) = utf16Encode (runes s) := by
    apply map_mod_eq_self
    intro u hu
    simp only [utf16Encode, List.mem_flatMap] at hu
    obtain ⟨v, _, hv⟩ := hu
    exact utf16EncodeRune_lt v u hv
  have hsc : ∀ v ∈ runes s, IsScalar v := runesFrom_scalar s 0
  simp only [decodeUTF16HexLiteral, decodeUTF16Runes, NewHexLiteral, hexDecode_encode,
    map_mod_eq_self 256 _ (EncodeUTF16String_lt s)]
  simp only [EncodeUTF16String, List.cons_append, List.nil_append, unitsOfBytes_encode, hmap,
    utf16Decode_encode _ hsc, Option.map_some']

/-- A well-formed string reads back as itself. -/
theorem decode_encode_goString (text : String) :
    decodeUTF16HexLiteral (NewHexLiteral (EncodeUTF16String (goString text))) =
      some (goString text) := by
  rw [decode_encode, runes_goString]
  rfl

/-! ## The setters -/

/-- Every setter answers `nil` for a field that is not indexed. -/
theorem setters_missing (r : PDFFormFiller) (name : String) (objectId : Int)
    (value : GoString) (option : String) (setReadOnly : Bool) (hn : mapGet r.fieldMapByName name = none)
    (hi : mapGet r.fieldMapById objectId = none) :
    SetTextFieldByName r name value setReadOnly = (none, r) ∧
    SetTextFieldById r objectId value setReadOnly = (none, r) ∧
    SetCheckboxFieldByName r name option setReadOnly = (none, r) ∧
    SetCheckboxFieldById r objectId option setReadOnly = (none, r) := by
  simp [SetTextFieldByName, SetTextFieldById, SetCheckboxFieldByName, SetCheckboxFieldById,
    hn, hi, errorsWrapf]

theorem SetTextFieldById_fail (r : PDFFormFiller) (objectId : Int) (value : GoString)
    (ro : Bool)
    (err : Error) (r2 : PDFFormFiller)
    (h : SetTextFieldById r objectId value ro = (some err, r2)) : r2 = r := by
  unfold SetTextFieldById at h
  simp only [errorsWrapf, errorsErrorf] at h
  split at h
  · simp at h
  · split at h
    · simp only [Prod.mk.injEq] at h
      exact h.2.symm
    · simp at h

theorem SetCheckboxFieldById_fail (r : PDFFormFiller) (objectId : Int) (value : String)
    (ro : Bool) (err : Error) (r2 : PDFFormFiller)
    (h : SetCheckboxFieldById r objectId value ro = (some err, r2)) : r2 = r := by
  unfold SetCheckboxFieldById at h
  simp only [errorsWrapf, errorsErrorf] at h
  split at h
  · simp at h
  · split at h
    · simp only [Prod.mk.injEq] at h
      exact h.2.symm
    · simp at h

theorem SetTextFieldById_frame (r : PDFFormFiller) (objectId : Int) (formField : FormField)
    (value : GoString) (ro : Bool) (hf : mapGet r.fieldMapById objectId = some formField)
    (id : Int) (hid : id ≠ formField.Dict) :
    mapGet (SetTextFieldById r objectId value ro).2.ctx.XRefTable.Table id =
      mapGet r.ctx.XRefTable.Table id := by
  unfold SetTextFieldById
  simp only [hf]
  split
  · rfl
  · cases ro with
    | false => simp only [Bool.false_eq_true, if_false]; exact table_dictSet_ne _ _ _ _ _ hid
    | true =>
      simp only [if_true]
      rw [table_dictSet_ne _ _ _ _ _ hid, table_dictSet_ne _ _ _ _ _ hid]

theorem SetCheckboxFieldById_frame (r : PDFFormFiller) (objectId : Int) (formField : FormField)
    (value : String) (ro : Bool) (hf : mapGet r.fieldMapById objectId = some formField)
    (id : Int) (hid : id ≠ formField.Dict) :
    mapGet (SetCheckboxFieldById r objectId value ro).2.ctx.XRefTable.Table id =
      mapGet r.ctx.XRefTable.Table id := by
  unfold SetCheckboxFieldById
  simp only [hf]
  split
  · rfl
  · cases ro with
    | false => simp only [Bool.false_eq_true, if_false]; exact table_dictSet_ne _ _ _ _ _ hid
    | true =>
      simp only [if_true]
      rw [table_dictSet_ne _ _ _ _ _ hid, table_dictSet_ne _ _ _ _ _ hid]

theorem SetTextFieldById_writes (r : PDFFormFiller) (objectId : Int) (formField : FormField)
    (d : Dict) (value : GoString) (ro : Bool)
    (hf : mapGet r.fieldMapById objectId = some formField) (ht : formField.«Type» = "Tx")
    (hd : dictOf r.ctx formField.Dict = some d) :
    ∃ d', dictOf (SetTextFieldById r objectId value ro).2.ctx formField.Dict = some d' ∧
      Dict.Find d' "V" = some (NewHexLiteral (EncodeUTF16String value)) := by
  obtain ⟨d', h1, h2, _⟩ := write_effect r.ctx formField.Dict "V"
    (NewHexLiteral (EncodeUTF16String value)) ro d hd (by decide)
  refine ⟨d', ?_, h2⟩
  rw [← h1]
  simp [SetTextFieldById, hf, ht]

theorem SetCheckboxFieldById_writes (r : PDFFormFiller) (objectId : Int)
    (formField : FormField) (d : Dict) (value : String) (ro : Bool)
    (hf : mapGet r.fieldMapById objectId = some formField) (ht : formField.«Type» = "Btn")
    (hd : dictOf r.ctx formField.Dict = some d) :
    ∃ d', dictOf (SetCheckboxFieldById r objectId value ro).2.ctx formField.Dict = some d' ∧
      Dict.Find d' "AS" = some (Object.Name value) := by
  obtain ⟨d', h1, h2, _⟩ := write_effect r.ctx formField.Dict "AS"
    (Object.Name value) ro d hd (by decide)
  refine ⟨d', ?_, h2⟩
  rw [← h1]
  simp [SetCheckboxFieldById, hf, ht]

/-! ## The batch fill -/

theorem applyEntry_fail (r : PDFFormFiller) (e : String × Value) (ro : Bool)
    (err : Error) (r2 : PDFFormFiller) (h : applyEntry r e ro = (some err, r2)) : r2 = r := by
  obtain ⟨key, v⟩ := e
  cases v with
  | string str =>
    simp only [applyEntry, SetTextFieldByName, errorsWrapf] at h
    split at h
    · simp at h
    · exact SetTextFieldById_fail _ _ _ _ _ _ h
  | bool b =>
    simp only [applyEntry, SetCheckboxFieldByName, errorsWrapf] at h
    split at h
    · simp at h
    · exact SetCheckboxFieldById_fail _ _ _ _ _ _ h
  | other x =>
    simp [applyEntry] at h

theorem Fill_eq_of_applyAll (readOnly : Bool) (form : List (String × Value)) :
    ∀ (r r' : PDFFormFiller), applyAll r form readOnly = some r' →
      (Fill r form readOnly).err = none ∧ (Fill r form readOnly).filler = r' := by
  induction form with
  | nil =>
    intro r r' h
    simp only [applyAll, Option.some.injEq] at h
    exact ⟨rfl, h⟩
  | cons e rest ih =>
    intro r r' h
    obtain ⟨key, v⟩ := e
    cases v with
    | string str =>
      simp only [applyAll, applyEntry] at h
      simp only [Fill]
      split at h
      · rename_i r1 heq
        rw [heq]
        exact ih r1 r' h
      · simp at h
    | bool b =>
      simp only [applyAll, applyEntry] at h
      simp only [Fill]
      split at h
      · rename_i r1 heq
        rw [heq]
        exact ih r1 r' h
      · simp at h
    | other x =>
      simp only [applyAll, applyEntry] at h
      simp only [Fill]
      exact ih r r' h

theorem Fill_cons_fail (r : PDFFormFiller) (e : String × Value) (post : List (String × Value))
    (ro : Bool) (err : Error) (r2 : PDFFormFiller) (h : applyEntry r e ro = (some err, r2)) :
    (Fill r (e :: post) ro).err = some err ∧ (Fill r (e :: post) ro).filler = r2 := by
  obtain ⟨key, v⟩ := e
  cases v with
  | string str =>
    simp only [applyEntry] at h
    simp [Fill, h]
  | bool b =>
    simp only [applyEntry] at h
    simp [Fill, h]
  | other x => simp [applyEntry] at h

theorem Fill_append_fail (readOnly : Bool) (e : String × Value) (post : List (String × Value))
    (err : Error) (pre : List (String × Value)) :
    ∀ (r r1 r2 : PDFFormFiller), applyAll r pre readOnly = some r1 →
      applyEntry r1 e readOnly = (some err, r2) →
      (Fill r (pre ++ e :: post) readOnly).err = some err ∧
      (Fill r (pre ++ e :: post) readOnly).filler = r2 := by
  induction pre with
  | nil =>
    intro r r1 r2 h he
    simp only [applyAll, Option.some.injEq] at h
    subst h
    exact Fill_cons_fail r e post readOnly err r2 he
  | cons p pre ih =>
    intro r r1 r2 h he
    obtain ⟨key, v⟩ := p
    cases v with
    | string str =>
      simp only [applyAll, applyEntry] at h
      simp only [List.cons_append, Fill]
      split at h
      · rename_i r' heq
        rw [heq]
        exact ih r' r1 r2 h he
      · simp at h
    | bool b =>
      simp only [applyAll, applyEntry] at h
      simp only [List.cons_append, Fill]
      split at h
      · rename_i r' heq
        rw [heq]
        exact ih r' r1 r2 h he
      · simp at h
    | other x =>
      simp only [applyAll, applyEntry] at h
      simp only [List.cons_append, Fill]
      exact ih r r1 r2 h he

/-! ## The scan of the object table -/

theorem keptDict_some (item : XRefTableEntry) (dict : Dict) (h : keptDict item = some dict) :
    item.Object = some (Object.Dict dict) ∧
    (∃ subtype, Dict.Find dict "Subtype" = some subtype ∧ Object.String subtype = "Widget") ∧
    ∃ fieldType, Dict.Find dict "FT" = some fieldType := by
  unfold keptDict at h
  split at h
  · rename_i d hobj
    split at h
    · rename_i subtype ft hs hf
      split at h
      · rename_i hw
        simp only [Option.some.injEq] at h
        subst h
        exact ⟨hobj, ⟨subtype, hs, hw⟩, ⟨ft, hf⟩⟩
      · simp at h
    · simp at h
  · simp at h

theorem scanEntry_of_not_kept (lib : Pdfcpu) (ctx : Context) (objectId : Int)
    (item : XRefTableEntry) (h : keptDict item = none) :
    scanEntry lib ctx objectId item = Scan.skip := by
  unfold keptDict at h
  unfold scanEntry
  split
  · rename_i dict hobj
    rw [hobj] at h
    simp only at h
    cases hs : Dict.Find dict "Subtype" with
    | none => rfl
    | some subtype =>
      simp only []
      by_cases hw : Object.String subtype = "Widget"
      · cases hf : Dict.Find dict "FT" with
        | none => simp [hw]
        | some ft => simp [hs, hf, hw] at h
      · simp [hw]
  · rfl

theorem scanEntry_of_kept (lib : Pdfcpu) (ctx : Context) (objectId : Int)
    (item : XRefTableEntry) (dict : Dict) (f : FormField) (h : keptDict item = some dict)
    (hf : fieldOfWidget lib ctx (objectId, dict) = some f) :
    scanEntry lib ctx objectId item = Scan.add f := by
  obtain ⟨hobj, ⟨subtype, hs, hw⟩, ⟨ft, hft⟩⟩ := keptDict_some item dict h
  unfold fieldOfWidget at hf
  simp only [hft] at hf
  unfold scanEntry
  simp only [hobj, hs, hw, hft, ne_eq, not_true_eq_false, if_false]
  unfold widgetName at hf
  unfold widgetRect at hf
  unfold decodeT
  cases hT : mapGet dict "T" with
  | none => simp [hT] at hf
  | some o =>
    cases o <;> simp only [hT] at hf ⊢ <;> try (simp at hf)
    · rename_i s
      cases hr : lib.RectForArray ctx (Dict.ArrayEntry dict "Rect") with
      | panicked m => simp [hr] at hf
      | returned x =>
        cases x with
        | error e => simp [hr] at hf
        | ok bb => simp [hr] at hf ⊢; exact hf
    · rename_i hx
      cases hn : lib.HexLiteralToString hx with
      | error e => simp [hn] at hf
      | ok name =>
        cases hr : lib.RectForArray ctx (Dict.ArrayEntry dict "Rect") with
        | panicked m => simp [hn, hr] at hf
        | returned x =>
          cases x with
          | error e => simp [hn, hr] at hf
          | ok bb => simp [hn, hr] at hf ⊢; exact hf

theorem fieldOfWidget_of_wf (lib : Pdfcpu) (ctx : Context) (objectId : Int)
    (item : XRefTableEntry) (dict : Dict) (h : keptDict item = some dict)
    (hn : (widgetName lib dict).isSome) (hr : (widgetRect lib ctx dict).isSome) :
    ∃ f, fieldOfWidget lib ctx (objectId, dict) = some f ∧ f.ObjectId = objectId ∧
      f.Dict = objectId ∧ widgetName lib dict = some f.Name := by
  obtain ⟨_, _, ⟨ft, hft⟩⟩ := keptDict_some item dict h
  obtain ⟨name, hname⟩ := Option.isSome_iff_exists.mp hn
  obtain ⟨bb, hbb⟩ := Option.isSome_iff_exists.mp hr
  exact ⟨⟨objectId, name, bb, Object.String ft, objectId⟩,
    by simp [fieldOfWidget, hft, hname, hbb], rfl, rfl, hname⟩

theorem fieldOfWidget_some (lib : Pdfcpu) (ctx : Context) (w : Int × Dict) (f : FormField)
    (h : fieldOfWidget lib ctx w = some f) :
    f.ObjectId = w.1 ∧ f.Dict = w.1 ∧ widgetName lib w.2 = some f.Name := by
  unfold fieldOfWidget at h
  split at h
  · rename_i ft name bb _ hn _
    simp only [Option.some.injEq] at h
    subst h
    exact ⟨rfl, rfl, hn⟩
  · simp at h

theorem indexField_ctx (r : PDFFormFiller) (f : FormField) : (indexField r f).ctx = r.ctx := rfl

theorem extractLoop_eq (lib : Pdfcpu) (t : List (Int × XRefTableEntry)) :
    ∀ r : PDFFormFiller,
      (∀ w ∈ keptWidgets t, (widgetName lib w.2).isSome ∧ (widgetRect lib r.ctx w.2).isSome) →
      extractLoop lib t r = Outcome.returned
        (none, ((keptWidgets t).filterMap (fieldOfWidget lib r.ctx)).foldl indexField r) := by
  induction t with
  | nil => intro r _; rfl
  | cons e t ih =>
    intro r hwf
    obtain ⟨objectId, item⟩ := e
    cases hk : keptDict item with
    | none =>
      have hkw : keptWidgets ((objectId, item) :: t) = keptWidgets t := by
        simp [keptWidgets, hk]
      rw [hkw] at hwf ⊢
      rw [extractLoop, scanEntry_of_not_kept lib r.ctx objectId item hk]
      exact ih r hwf
    | some dict =>
      have hkw : keptWidgets ((objectId, item) :: t) = (objectId, dict) :: keptWidgets t := by
        simp [keptWidgets, hk]
      rw [hkw] at hwf ⊢
      have h1 := hwf (objectId, dict) (List.mem_cons_self _ _)
      obtain ⟨f, hf, hid, _, _⟩ := fieldOfWidget_of_wf lib r.ctx objectId item dict hk h1.1 h1.2
      rw [extractLoop, scanEntry_of_kept lib r.ctx objectId item dict f hk hf]
      simp only [List.filterMap_cons, hf, List.foldl_cons]
      have := ih (indexField r f) (fun w hw => hwf w (List.mem_cons_of_mem _ hw))
      simp only [indexField_ctx] at this
      rw [← this]
      simp only [indexField, hid]

theorem foldl_indexField_ctx (fs : List FormField) :
    ∀ r : PDFFormFiller, (fs.foldl indexField r).ctx = r.ctx := by
  induction fs with
  | nil => intro r; rfl
  | cons f fs ih => intro r; rw [List.foldl_cons, ih]; rfl

theorem foldl_indexField_byId (fs : List FormField) :
    ∀ r : PDFFormFiller, (fs.foldl indexField r).fieldMapById =
      fs.foldl (fun m f => mapSet m f.ObjectId f) r.fieldMapById := by
  induction fs with
  | nil => intro r; rfl
  | cons f fs ih => intro r; rw [List.foldl_cons, ih]; rfl

theorem foldl_indexField_byName (fs : List FormField) :
    ∀ r : PDFFormFiller, (fs.foldl indexField r).fieldMapByName =
      fs.foldl (fun m f => mapSet m f.Name f) r.fieldMapByName := by
  induction fs with
  | nil => intro r; rfl
  | cons f fs ih => intro r; rw [List.foldl_cons, ih]; rfl

theorem keptWidgets_mem (t : List (Int × XRefTableEntry)) (w : Int × Dict)
    (h : w ∈ keptWidgets t) : ∃ item, (w.1, item) ∈ t ∧ keptDict item = some w.2 := by
  simp only [keptWidgets, List.mem_filterMap, Option.map_eq_some'] at h
  obtain ⟨e, he, d, hd, hw⟩ := h
  subst hw
  exact ⟨e.2, he, hd⟩

theorem keptWidgets_ids_sublist (t : List (Int × XRefTableEntry)) :
    List.Sublist ((keptWidgets t).map Prod.fst) (t.map Prod.fst) := by
  induction t with
  | nil => exact List.Sublist.slnil
  | cons e t ih =>
    obtain ⟨objectId, item⟩ := e
    cases hk : keptDict item with
    | none =>
      have : keptWidgets ((objectId, item) :: t) = keptWidgets t := by simp [keptWidgets, hk]
      rw [this]
      exact List.Sublist.cons _ ih
    | some dict =>
      have : keptWidgets ((objectId, item) :: t) = (objectId, dict) :: keptWidgets t := by
        simp [keptWidgets, hk]
      rw [this]
      exact List.Sublist.cons₂ _ ih

/-- Under the hypothesis that every kept widget is well formed, the fields in scan order. -/
theorem fields_map (lib : Pdfcpu) (ctx : Context) (ws : List (Int × Dict))
    (hwf : ∀ w ∈ ws, (fieldOfWidget lib ctx w).isSome) :
    ((ws.filterMap (fieldOfWidget lib ctx)).map FormField.ObjectId = ws.map Prod.fst) ∧
    ((ws.filterMap (fieldOfWidget lib ctx)).map (fun f => some f.Name) =
      ws.map (fun w => widgetName lib w.2)) ∧
    (ws.filterMap (fieldOfWidget lib ctx)).length = ws.length := by
  induction ws with
  | nil => exact ⟨rfl, rfl, rfl⟩
  | cons w ws ih =>
    obtain ⟨f, hf⟩ := Option.isSome_iff_exists.mp (hwf w (List.mem_cons_self _ _))
    obtain ⟨h1, h2, h3⟩ := ih (fun w' hw' => hwf w' (List.mem_cons_of_mem _ hw'))
    obtain ⟨g1, _, g3⟩ := fieldOfWidget_some lib ctx w f hf
    simp only [List.filterMap_cons, hf, List.map_cons, List.length_cons, h1, h2, h3, g1, g3,
      and_self]

/-- The index `extractFormFields` builds on a table whose kept widgets all
carry a decodable name and an accepted rectangle. -/
theorem extractFormFields_eq (lib : Pdfcpu) (ctx : Context)
    (hwf : ∀ w ∈ keptWidgets ctx.XRefTable.Table,
      (widgetName lib w.2).isSome ∧ (widgetRect lib ctx w.2).isSome) :
    extractFormFields lib ⟨ctx, [], []⟩ = Outcome.returned
      (none, ((keptWidgets ctx.XRefTable.Table).filterMap (fieldOfWidget lib ctx)).foldl
        indexField ⟨ctx, [], []⟩) ∧
    ∀ w ∈ keptWidgets ctx.XRefTable.Table, (fieldOfWidget lib ctx w).isSome := by
  refine ⟨extractLoop_eq lib ctx.XRefTable.Table ⟨ctx, [], []⟩ hwf, ?_⟩
  intro w hw
  obtain ⟨item, _, hk⟩ := keptWidgets_mem _ w hw
  obtain ⟨f, hf, _⟩ := fieldOfWidget_of_wf lib ctx w.1 item w.2 hk (hwf w hw).1 (hwf w hw).2
  exact Option.isSome_iff_exists.mpr ⟨f, hf⟩

/-- The index `extractFormFields` builds is sound: an entry filed under an
object number is the field of that object and aliases the dictionary the table
holds under that number, and an entry filed under a name carries that name and
is the entry filed under its object number. -/
theorem extractFormFields_index_sound (lib : Pdfcpu) (ctx : Context)
    (hids : (ctx.XRefTable.Table.map Prod.fst).Nodup)
    (hwf : ∀ w ∈ keptWidgets ctx.XRefTable.Table,
      (widgetName lib w.2).isSome ∧ (widgetRect lib ctx w.2).isSome) :
    ∃ r', extractFormFields lib ⟨ctx, [], []⟩ = Outcome.returned (none, r') ∧
      (∀ id f, mapGet r'.fieldMapById id = some f →
        f.ObjectId = id ∧ f.Dict = id ∧ ∃ d, dictOf r'.ctx f.Dict = some d) ∧
      (∀ n f, mapGet r'.fieldMapByName n = some f →
        f.Name = n ∧ mapGet r'.fieldMapById f.ObjectId = some f) := by
  obtain ⟨heq, hsome⟩ := extractFormFields_eq lib ctx hwf
  obtain ⟨h1, _, _⟩ := fields_map lib ctx _ hsome
  have hkn : ((keptWidgets ctx.XRefTable.Table).map Prod.fst).Nodup :=
    List.Nodup.sublist (keptWidgets_ids_sublist _) hids
  rw [← h1] at hkn
  have hfield : ∀ f ∈ (keptWidgets ctx.XRefTable.Table).filterMap (fieldOfWidget lib ctx),
      f.Dict = f.ObjectId ∧ ∃ d, dictOf ctx f.ObjectId = some d := by
    intro f hf
    obtain ⟨w, hw, hwf'⟩ := List.mem_filterMap.mp hf
    obtain ⟨k1, k2, _⟩ := fieldOfWidget_some lib ctx w f hwf'
    obtain ⟨item, hitem, hk⟩ := keptWidgets_mem _ w hw
    obtain ⟨hobj, _, _⟩ := keptDict_some item w.2 hk
    have hg := mapGet_of_mem_nodup ctx.XRefTable.Table w.1 item hids hitem
    refine ⟨by rw [k1, k2], w.2, ?_⟩
    unfold dictOf
    rw [k1, hg]
    obtain ⟨o⟩ := item
    simp only at hobj
    subst hobj
    rfl
  have hbyId : ∀ f ∈ (keptWidgets ctx.XRefTable.Table).filterMap (fieldOfWidget lib ctx),
      mapGet (((keptWidgets ctx.XRefTable.Table).filterMap (fieldOfWidget lib ctx)).foldl
        indexField ⟨ctx, [], []⟩).fieldMapById f.ObjectId = some f := by
    intro f hf
    obtain ⟨pre, post, hsplit⟩ := List.append_of_mem hf
    rw [foldl_indexField_byId]
    rw [hsplit] at hkn ⊢
    apply mapGet_foldl_mapSet_last FormField.ObjectId
    intro g hg hgf
    rw [List.map_append, List.map_cons] at hkn
    have hnd := (List.nodup_cons.mp (List.nodup_append.mp hkn).2.1).1
    apply hnd
    rw [← hgf]
    exact List.mem_map_of_mem FormField.ObjectId hg
  refine ⟨_, heq, ?_, ?_⟩
  · intro id f hf
    rw [foldl_indexField_byId] at hf
    rcases mapGet_foldl_mapSet_mem FormField.ObjectId _ _ id f hf with ⟨hm, hk⟩ | hm
    · obtain ⟨k1, d, hd⟩ := hfield f hm
      refine ⟨hk, by rw [k1, hk], d, ?_⟩
      rw [foldl_indexField_ctx, k1]
      exact hd
    · simp [mapGet] at hm
  · intro n f hf
    rw [foldl_indexField_byName] at hf
    rcases mapGet_foldl_mapSet_mem FormField.Name _ _ n f hf with ⟨hm, hk⟩ | hm
    · exact ⟨hk, hbyId f hm⟩
    · simp [mapGet] at hm

/-! ## The overlay -/

/-- The overlay call of `AddImageOverObjectById` reads the lower-left corner of
the field's rectangle and nothing else of it. -/
theorem AddImageOverObjectById_eq (lib : Pdfcpu) (r : PDFFormFiller) (objectId : Int)
    (formField : FormField) (image : List Nat) (w h : Int)
    (hf : mapGet r.fieldMapById objectId = some formField) :
    AddImageOverObjectById lib r objectId image =
      AddImage lib r 1 image (truncToInt formField.Rect.LL.X) (truncToInt formField.Rect.LL.Y)
        w h 1 := by
  simp [AddImageOverObjectById, hf, AddImage]

/-! ## The concrete document -/

/-- The filler `docFiller` is what the scan of `docTable` builds. -/
theorem extractFormFields_docTable :
    extractFormFields pdfcpuExample ⟨⟨⟨docTable⟩⟩, [], []⟩ = Outcome.returned (none, docFiller) :=
  rfl

/-! ## The claims -/

/-- Claim C1, evaluated on the code: on the filler `docFiller`, which indexes
neither the name `nope` nor the object number 999, each of the four setters
returns `nil` as its error, not an error, and leaves the filler as it was.  The
lookup fails with the named result `err` still `nil`, and `errors.Wrapf` of a
`nil` error is `nil`. -/
theorem C1_setters_missing_field_return_nil :
    mapGet docFiller.fieldMapByName "nope" = none ∧
    mapGet docFiller.fieldMapById 999 = none ∧
    SetTextFieldByName docFiller "nope" (goString "x") false = (none, docFiller) ∧
    SetTextFieldById docFiller 999 (goString "x") false = (none, docFiller) ∧
    SetCheckboxFieldByName docFiller "nope" "1" false = (none, docFiller) ∧
    SetCheckboxFieldById docFiller 999 "1" false = (none, docFiller) := by
  have hn : mapGet docFiller.fieldMapByName "nope" = none := rfl
  have hi : mapGet docFiller.fieldMapById 999 = none := rfl
  have h1 := setters_missing docFiller "nope" 999 (goString "x") "1" false hn hi
  exact ⟨hn, hi, h1.1, h1.2.1, h1.2.2.1, h1.2.2.2⟩

/-- Claim C2: for an indexed field whose type is not `Tx`, every value and every
read-only flag, `SetTextFieldById` returns the type error and leaves the whole
filler, hence every dictionary, as it was: no `V` is written and `Ff` is not
touched. -/
theorem C2_SetTextFieldById_type_mismatch (r : PDFFormFiller) (objectId : Int)
    (formField : FormField) (value : GoString) (setReadOnly : Bool)
    (hf : mapGet r.fieldMapById objectId = some formField) (ht : formField.«Type» ≠ "Tx") :
    SetTextFieldById r objectId value setReadOnly =
      (some ("type of field " ++ toString objectId ++ " is " ++ formField.«Type»
        ++ " (expected Tx)"), r) := by
  simp [SetTextFieldById, hf, ht, errorsErrorf]

/-- Claim C2 on the check box 312 of `docFiller`, asked for as a text field. -/
theorem C2_witness :
    mapGet docFiller.fieldMapById 312 = some docField312 ∧ docField312.«Type» ≠ "Tx" ∧
    SetTextFieldById docFiller 312 (goString "Hello") true =
      (some "type of field 312 is Btn (expected Tx)", docFiller) :=
  ⟨rfl, by decide,
    C2_SetTextFieldById_type_mismatch docFiller 312 docField312 (goString "Hello") true rfl
      (by decide)⟩

/-- Claim C3 as stated fails: the text field 302 of `docFiller` is given the
one-byte string `FF`, which is not well-formed UTF-8.  The call returns `nil`
and writes the hex literal `fefffffd`, the UTF-16 encoding of `U+FFFD`, which
reads back as the three bytes `EF BF BD`, not as the value. -/
theorem C3_ill_formed_value_does_not_read_back :
    (SetTextFieldById docFiller 302 [0xFF] false).1 = none ∧
    (dictOf (SetTextFieldById docFiller 302 [0xFF] false).2.ctx 302).bind
      (fun d => Dict.Find d "V") = some (Object.HexLiteral "fefffffd") ∧
    decodeUTF16HexLiteral (Object.HexLiteral "fefffffd") = some [0xEF, 0xBF, 0xBD] ∧
    ((dictOf (SetTextFieldById docFiller 302 [0xFF] false).2.ctx 302).bind
      (fun d => Dict.Find d "V")).bind decodeUTF16HexLiteral ≠ some [0xFF] := by
  refine ⟨rfl, rfl, rfl, ?_⟩
  have h : ((dictOf (SetTextFieldById docFiller 302 [0xFF] false).2.ctx 302).bind
      (fun d => Dict.Find d "V")).bind decodeUTF16HexLiteral = some [0xEF, 0xBF, 0xBD] := rfl
  rw [h]
  decide

/-- Claim C3, as amended: for an indexed field of type `Tx`, whose dictionary
`d` the table holds under the field's alias, and every string value, well
formed or not, `SetTextFieldById` returns `nil`; afterwards the `V` entry of
that dictionary is the hex literal of the UTF-16 encoding of the runes of the
value; it reads back as `string([]rune(value))`, which is the value itself
whenever the value is well-formed UTF-8, the Go string of a text; every other
key of the dictionary except `Ff` under a read-only request is as before,
every other entry of the table is as before, and both index maps are as
before. -/
theorem C3_SetTextFieldById_effect (r : PDFFormFiller) (objectId : Int) (formField : FormField)
    (d : Dict) (value : GoString) (setReadOnly : Bool)
    (hf : mapGet r.fieldMapById objectId = some formField) (ht : formField.«Type» = "Tx")
    (hd : dictOf r.ctx formField.Dict = some d) :
    (SetTextFieldById r objectId value setReadOnly).1 = none ∧
    (SetTextFieldById r objectId value setReadOnly).2.fieldMapById = r.fieldMapById ∧
    (SetTextFieldById r objectId value setReadOnly).2.fieldMapByName = r.fieldMapByName ∧
    ∃ d', dictOf (SetTextFieldById r objectId value setReadOnly).2.ctx formField.Dict = some d' ∧
      Dict.Find d' "V" = some (NewHexLiteral (EncodeUTF16String value)) ∧
      (Dict.Find d' "V").bind decodeUTF16HexLiteral = some (stringOfRunes (runes value)) ∧
      (∀ text : String, value = goString text →
        (Dict.Find d' "V").bind decodeUTF16HexLiteral = some value) ∧
      (∀ k, k ≠ "V" → (k ≠ "Ff" ∨ setReadOnly = false) → Dict.Find d' k = Dict.Find d k) ∧
      (∀ id, id ≠ formField.Dict →
        mapGet (SetTextFieldById r objectId value setReadOnly).2.ctx.XRefTable.Table id =
          mapGet r.ctx.XRefTable.Table id) := by
  obtain ⟨d', h1, h2, h3, h4, h5⟩ := write_effect r.ctx formField.Dict "V"
    (NewHexLiteral (EncodeUTF16String value)) setReadOnly d hd (by decide)
  have hs : SetTextFieldById r objectId value setReadOnly =
      (none, { r with ctx := (if setReadOnly = true then
        (dictSet (dictSet r.ctx formField.Dict "V" (NewHexLiteral (EncodeUTF16String value)))
          formField.Dict "Ff" (Object.Integer 1))
        else (dictSet r.ctx formField.Dict "V" (NewHexLiteral (EncodeUTF16String value)))) }) := by
    simp [SetTextFieldById, hf, ht]
  rw [hs]
  refine ⟨rfl, rfl, rfl, d', h1, h2, ?_, ?_, ?_, h5⟩
  · rw [h2]; exact decode_encode value
  · intro text htext
    rw [h2, htext]
    exact decode_encode_goString text
  · intro k hk hor
    by_cases hff : k = "Ff"
    · rcases hor with h | h
      · exact absurd hff h
      · subst hff
        rw [h4, h]
        simp
    · exact h3 k hk hff

/-- Claim C3, as amended, on the text field 302 of `docFiller`, with a
well-formed value outside ASCII. -/
theorem C3_witness :
    mapGet docFiller.fieldMapById 302 = some docField302 ∧ docField302.«Type» = "Tx" ∧
    (SetTextFieldById docFiller 302 (goString "中文 Hello") true).1 = none ∧
    ∃ d', dictOf (SetTextFieldById docFiller 302 (goString "中文 Hello") true).2.ctx 302 =
        some d' ∧
      (Dict.Find d' "V").bind decodeUTF16HexLiteral = some (goString "中文 Hello") ∧
      Dict.Find d' "Rect" = some (Object.Array ([100, 700, 300, 720].map Object.Integer)) := by
  obtain ⟨h1, _, _, d', h2, _, _, h3, h4, _⟩ :=
    C3_SetTextFieldById_effect docFiller 302 docField302 _ (goString "中文 Hello") true rfl rfl rfl
  exact ⟨rfl, rfl, h1, d', h2, h3 "中文 Hello" rfl, h4 "Rect" (by decide) (Or.inl (by decide))⟩

/-- Claim C4: with the entries of the form in the order `Fill` visits them, an
entry that is neither a string nor a bool changes neither the result nor the
filler, and alone yields `nil` and the same filler; when the entries before
`e` all succeed and leave the filler `r1`, and the setter call for `e` fails on
`r1` with `err`, `Fill` returns `err` and leaves exactly `r1`, whatever follows
`e`; and when every entry succeeds, `Fill` returns `nil` and leaves the filler
all the calls produce in turn. -/
theorem C4_Fill_best_effort_fail_fast (r : PDFFormFiller) (readOnly : Bool) :
    (∀ (key v : String) (rest : List (String × Value)),
      (Fill r ((key, Value.other v) :: rest) readOnly).err = (Fill r rest readOnly).err ∧
      (Fill r ((key, Value.other v) :: rest) readOnly).filler = (Fill r rest readOnly).filler ∧
      (Fill r [(key, Value.other v)] readOnly).err = none ∧
      (Fill r [(key, Value.other v)] readOnly).filler = r) ∧
    (∀ (pre post : List (String × Value)) (e : String × Value) (r1 r2 : PDFFormFiller)
      (err : Error), applyAll r pre readOnly = some r1 →
      applyEntry r1 e readOnly = (some err, r2) →
      (Fill r (pre ++ e :: post) readOnly).err = some err ∧
      (Fill r (pre ++ e :: post) readOnly).filler = r1) ∧
    (∀ (form : List (String × Value)) (r' : PDFFormFiller),
      applyAll r form readOnly = some r' →
      (Fill r form readOnly).err = none ∧ (Fill r form readOnly).filler = r') := by
  refine ⟨?_, ?_, ?_⟩
  · intro key v rest
    exact ⟨rfl, rfl, rfl, rfl⟩
  · intro pre post e r1 r2 err h he
    have := Fill_append_fail readOnly e post err pre r r1 r2 h he
    rw [applyEntry_fail r1 e readOnly err r2 he] at this
    exact this
  · intro form r' h
    exact Fill_eq_of_applyAll readOnly form r r' h

/-- Claim C4 on `docFiller`, with a form of four distinct keys: a text entry
and an entry of another type are applied, the third entry gives the check box
a text value and fails, the fourth is never applied. -/
theorem C4_witness :
    applyAll docFiller [("f_2[0]", Value.string (goString "Hello")), ("x", Value.other "42")]
        false =
      some (SetTextFieldByName docFiller "f_2[0]" (goString "Hello") false).2 ∧
    (Fill docFiller ([("f_2[0]", Value.string (goString "Hello")), ("x", Value.other "42")] ++
        ("c1_02[0]", Value.string (goString "yes")) ::
          [("Date[0]", Value.string (goString "today"))]) false).err =
      some "type of field 312 is Btn (expected Tx)" ∧
    (Fill docFiller ([("f_2[0]", Value.string (goString "Hello")), ("x", Value.other "42")] ++
        ("c1_02[0]", Value.string (goString "yes")) ::
          [("Date[0]", Value.string (goString "today"))]) false).filler =
      (SetTextFieldByName docFiller "f_2[0]" (goString "Hello") false).2 :=
  ⟨rfl, (C4_Fill_best_effort_fail_fast docFiller false).2.1
    [("f_2[0]", Value.string (goString "Hello")), ("x", Value.other "42")]
    [("Date[0]", Value.string (goString "today"))]
    ("c1_02[0]", Value.string (goString "yes")) _ _ "type of field 312 is Btn (expected Tx)"
    rfl rfl⟩

/-- Claim C5: `Fill` with the single entry `name: true` has the result and the
final filler of `SetCheckboxFieldByName name "1" readOnly`, and with
`name: false` those of `SetCheckboxFieldByName name "0" readOnly`. -/
theorem C5_Fill_bool_is_SetCheckboxFieldByName (r : PDFFormFiller) (name : String)
    (readOnly : Bool) :
    (Fill r [(name, Value.bool true)] readOnly).err =
        (SetCheckboxFieldByName r name "1" readOnly).1 ∧
    (Fill r [(name, Value.bool true)] readOnly).filler =
        (SetCheckboxFieldByName r name "1" readOnly).2 ∧
    (Fill r [(name, Value.bool false)] readOnly).err =
        (SetCheckboxFieldByName r name "0" readOnly).1 ∧
    (Fill r [(name, Value.bool false)] readOnly).filler =
        (SetCheckboxFieldByName r name "0" readOnly).2 := by
  refine ⟨?_, ?_, ?_, ?_⟩ <;>
  · simp only [Fill, Bool.false_eq_true, if_true, if_false]
    split <;> simp_all

/-- Claim C6: for an indexed field of type `Btn`, whose dictionary `d` the table
holds under the field's alias, and every option value, whatever the appearance
dictionary `AP` of `d` offers, `SetCheckboxFieldById` returns `nil`; afterwards
the `AS` entry of that dictionary is the name `value`; every other key of the
dictionary except `Ff` under a read-only request, `AP` included, is as before,
every other entry of the table is as before, and both index maps are as
before. -/
theorem C6_SetCheckboxFieldById_effect (r : PDFFormFiller) (objectId : Int)
    (formField : FormField) (d : Dict) (value : String) (setReadOnly : Bool)
    (hf : mapGet r.fieldMapById objectId = some formField) (ht : formField.«Type» = "Btn")
    (hd : dictOf r.ctx formField.Dict = some d) :
    (SetCheckboxFieldById r objectId value setReadOnly).1 = none ∧
    (SetCheckboxFieldById r objectId value setReadOnly).2.fieldMapById = r.fieldMapById ∧
    (SetCheckboxFieldById r objectId value setReadOnly).2.fieldMapByName = r.fieldMapByName ∧
    ∃ d', dictOf (SetCheckboxFieldById r objectId value setReadOnly).2.ctx formField.Dict = some d' ∧
      Dict.Find d' "AS" = some (Object.Name value) ∧
      (∀ k, k ≠ "AS" → (k ≠ "Ff" ∨ setReadOnly = false) → Dict.Find d' k = Dict.Find d k) ∧
      (∀ id, id ≠ formField.Dict →
        mapGet (SetCheckboxFieldById r objectId value setReadOnly).2.ctx.XRefTable.Table id =
          mapGet r.ctx.XRefTable.Table id) := by
  obtain ⟨d', h1, h2, h3, h4, h5⟩ := write_effect r.ctx formField.Dict "AS"
    (Object.Name value) setReadOnly d hd (by decide)
  have hs : SetCheckboxFieldById r objectId value setReadOnly =
      (none, { r with ctx := (if setReadOnly = true then
        (dictSet (dictSet r.ctx formField.Dict "AS" (Object.Name value))
          formField.Dict "Ff" (Object.Integer 1))
        else (dictSet r.ctx formField.Dict "AS" (Object.Name value))) }) := by
    simp [SetCheckboxFieldById, hf, ht]
  rw [hs]
  refine ⟨rfl, rfl, rfl, d', h1, h2, ?_, h5⟩
  intro k hk hor
  by_cases hff : k = "Ff"
  · rcases hor with h | h
    · exact absurd hff h
    · subst hff
      rw [h4, h]
      simp
  · exact h3 k hk hff

/-- Claim C6 on the check box 312 of `docFiller`, whose appearance dictionary
offers `1` and `Off`, set to the option `test 02` of the repository's test. -/
theorem C6_witness :
    mapGet docFiller.fieldMapById 312 = some docField312 ∧ docField312.«Type» = "Btn" ∧
    (dictOf docFiller.ctx 312).bind (fun d => Dict.Find d "AP") =
      some (Object.Dict [("N", Object.Dict [("1", Object.IndirectRef 400 0),
          ("Off", Object.IndirectRef 401 0)])]) ∧
    (SetCheckboxFieldById docFiller 312 "test 02" false).1 = none ∧
    ∃ d', dictOf (SetCheckboxFieldById docFiller 312 "test 02" false).2.ctx 312 = some d' ∧
      Dict.Find d' "AS" = some (Object.Name "test 02") := by
  obtain ⟨h1, _, _, d', h2, h3, _, _⟩ :=
    C6_SetCheckboxFieldById_effect docFiller 312 docField312 _ "test 02" false rfl rfl rfl
  exact ⟨rfl, rfl, rfl, h1, d', h2, h3⟩

/-- Claim C7, evaluated on the code: the text field 302 of `docFiller` has
`Ff = 4096` (multiline) and the check box 312 has `Ff = 2` (required); after a
successful read-only call of either setter the `Ff` entry is the integer 1, so
the bits that were set before are cleared. -/
theorem C7_readOnly_overwrites_Ff :
    (dictOf docFiller.ctx 302).bind (fun d => Dict.Find d "Ff") = some (Object.Integer 4096) ∧
    (SetTextFieldById docFiller 302 (goString "Hello") true).1 = none ∧
    (dictOf (SetTextFieldById docFiller 302 (goString "Hello") true).2.ctx 302).bind
      (fun d => Dict.Find d "Ff") = some (Object.Integer 1) ∧
    (dictOf docFiller.ctx 312).bind (fun d => Dict.Find d "Ff") = some (Object.Integer 2) ∧
    (SetCheckboxFieldById docFiller 312 "1" true).1 = none ∧
    (dictOf (SetCheckboxFieldById docFiller 312 "1" true).2.ctx 312).bind
      (fun d => Dict.Find d "Ff") = some (Object.Integer 1) :=
  ⟨rfl, rfl, rfl, rfl, rfl, rfl⟩

/-- Claim C8 as stated fails: in `namelessTable` and in `undecodableTable` the
first widget carries the decodable name `a`, yet the scan panics on the second
widget of the one, which has no `T` entry, and returns a decoding error on the
second widget of the other. -/
theorem C8_one_decodable_name_is_not_enough :
    (keptWidgets namelessTable).map (fun w => widgetName pdfcpuExample w.2) = [some "a", none] ∧
    extractFormFields pdfcpuExample ⟨⟨⟨namelessTable⟩⟩, [], []⟩ =
      Outcome.panicked "dict os not HexLiteral and not StringLiteral" ∧
    (keptWidgets undecodableTable).map (fun w => widgetName pdfcpuExample w.2) =
      [some "a", none] ∧
    (extractFormFields pdfcpuExample ⟨⟨⟨undecodableTable⟩⟩, [], []⟩ =
      Outcome.returned (some "Decode T attribute of form field failed: invalid hex literal",
        indexField ⟨⟨⟨undecodableTable⟩⟩, [], []⟩
          ⟨1, "a", ⟨⟨0, 0⟩, ⟨10, 10⟩⟩, "Tx", 1⟩)) :=
  ⟨rfl, rfl, rfl, rfl⟩

/-- Claim C8, as amended: on a table with distinct object numbers in which
every kept widget carries a decodable name and a rectangle the library
accepts, `extractFormFields` returns `nil` and leaves the context as it was;
the by-id map has one entry per kept widget, and when the names of the kept
widgets are pairwise distinct the by-name map has that size too. -/
theorem C8_extractFormFields_sizes (lib : Pdfcpu) (ctx : Context)
    (hids : (ctx.XRefTable.Table.map Prod.fst).Nodup)
    (hwf : ∀ w ∈ keptWidgets ctx.XRefTable.Table,
      (widgetName lib w.2).isSome ∧ (widgetRect lib ctx w.2).isSome) :
    ∃ r', extractFormFields lib ⟨ctx, [], []⟩ = Outcome.returned (none, r') ∧ r'.ctx = ctx ∧
      r'.fieldMapById.length = (keptWidgets ctx.XRefTable.Table).length ∧
      (((keptWidgets ctx.XRefTable.Table).map (fun w => widgetName lib w.2)).Nodup →
        r'.fieldMapByName.length = (keptWidgets ctx.XRefTable.Table).length ∧
        r'.fieldMapByName.length = r'.fieldMapById.length) := by
  obtain ⟨heq, hsome⟩ := extractFormFields_eq lib ctx hwf
  obtain ⟨h1, h2, h3⟩ := fields_map lib ctx _ hsome
  have hid : (((keptWidgets ctx.XRefTable.Table).filterMap (fieldOfWidget lib ctx)).foldl
      indexField ⟨ctx, [], []⟩).fieldMapById.length = (keptWidgets ctx.XRefTable.Table).length := by
    rw [foldl_indexField_byId, length_foldl_mapSet FormField.ObjectId _ _ _ (by simp [mapKeys])]
    · simp [h3]
    · rw [h1]
      exact List.Nodup.sublist (keptWidgets_ids_sublist _) hids
  refine ⟨_, heq, foldl_indexField_ctx _ _, hid, ?_⟩
  intro hnames
  have hn : (((keptWidgets ctx.XRefTable.Table).filterMap (fieldOfWidget lib ctx)).foldl
      indexField ⟨ctx, [], []⟩).fieldMapByName.length = (keptWidgets ctx.XRefTable.Table).length := by
    rw [foldl_indexField_byName, length_foldl_mapSet FormField.Name _ _ _ (by simp [mapKeys])]
    · simp [h3]
    · rw [← h2] at hnames
      have : (List.map (fun f => some f.Name)
          ((keptWidgets ctx.XRefTable.Table).filterMap (fieldOfWidget lib ctx))) =
          List.map some (List.map FormField.Name
            ((keptWidgets ctx.XRefTable.Table).filterMap (fieldOfWidget lib ctx))) := by
        simp [List.map_map, Function.comp_def]
      rw [this] at hnames
      exact List.Nodup.of_map _ hnames
  exact ⟨hn, by rw [hn, hid]⟩

/-- Claim C8, as amended, on `docTable` with its three widgets. -/
theorem C8_witness :
    (docTable.map Prod.fst).Nodup ∧
    ((keptWidgets docTable).map (fun w => widgetName pdfcpuExample w.2)).Nodup ∧
    ∃ r', extractFormFields pdfcpuExample ⟨⟨⟨docTable⟩⟩, [], []⟩ = Outcome.returned (none, r') ∧
      r'.fieldMapById.length = 3 ∧ r'.fieldMapByName.length = 3 := by
  have hids : (docTable.map Prod.fst).Nodup := by decide
  have hnames : ((keptWidgets docTable).map (fun w => widgetName pdfcpuExample w.2)).Nodup := by
    decide
  obtain ⟨r', h1, _, h2, h3⟩ := C8_extractFormFields_sizes pdfcpuExample ⟨⟨docTable⟩⟩ hids
    (by decide)
  exact ⟨hids, hnames, r', h1, h2, (h3 hnames).1⟩

/-- Claim C9: on a table with distinct object numbers in which every kept widget
carries a decodable name and an accepted rectangle, let `(j, dict)` be the last
kept widget in scan order named `n` (no widget after it carries that name).
Then `extractFormFields` returns `nil`, the by-id map has one entry per kept
widget, the by-name map sends `n` to the field of object `j`, which aliases
`dict`; a by-name setter is the by-id setter on `j`, leaves every other table
entry as it was, and writes `V` (text field) or `AS` (check box) into the
dictionary of `j`. -/
theorem C9_duplicate_names_last_wins (lib : Pdfcpu) (ctx : Context)
    (hids : (ctx.XRefTable.Table.map Prod.fst).Nodup)
    (hwf : ∀ w ∈ keptWidgets ctx.XRefTable.Table,
      (widgetName lib w.2).isSome ∧ (widgetRect lib ctx w.2).isSome)
    (n : String) (pre post : List (Int × Dict)) (j : Int) (dict : Dict)
    (hsplit : keptWidgets ctx.XRefTable.Table = pre ++ (j, dict) :: post)
    (hname : widgetName lib dict = some n)
    (hlast : ∀ w ∈ post, widgetName lib w.2 ≠ some n) :
    ∃ r' f, extractFormFields lib ⟨ctx, [], []⟩ = Outcome.returned (none, r') ∧ r'.ctx = ctx ∧
      r'.fieldMapById.length = (keptWidgets ctx.XRefTable.Table).length ∧
      mapGet r'.fieldMapByName n = some f ∧ mapGet r'.fieldMapById j = some f ∧
      f.ObjectId = j ∧ f.Dict = j ∧ f.Name = n ∧ dictOf ctx j = some dict ∧
      ∀ (value : GoString) (option : String) (ro : Bool),
        SetTextFieldByName r' n value ro = SetTextFieldById r' j value ro ∧
        SetCheckboxFieldByName r' n option ro = SetCheckboxFieldById r' j option ro ∧
        (∀ id, id ≠ j →
          mapGet (SetTextFieldByName r' n value ro).2.ctx.XRefTable.Table id =
            mapGet ctx.XRefTable.Table id) ∧
        (∀ id, id ≠ j →
          mapGet (SetCheckboxFieldByName r' n option ro).2.ctx.XRefTable.Table id =
            mapGet ctx.XRefTable.Table id) ∧
        (f.«Type» = "Tx" →
          ∃ d', dictOf (SetTextFieldByName r' n value ro).2.ctx j = some d' ∧
            Dict.Find d' "V" = some (NewHexLiteral (EncodeUTF16String value))) ∧
        (f.«Type» = "Btn" →
          ∃ d', dictOf (SetCheckboxFieldByName r' n option ro).2.ctx j = some d' ∧
            Dict.Find d' "AS" = some (Object.Name option)) := by
  obtain ⟨heq, hsome⟩ := extractFormFields_eq lib ctx hwf
  obtain ⟨h1, h2, h3⟩ := fields_map lib ctx _ hsome
  have hkn : ((keptWidgets ctx.XRefTable.Table).map Prod.fst).Nodup :=
    List.Nodup.sublist (keptWidgets_ids_sublist _) hids
  have hmem : (j, dict) ∈ keptWidgets ctx.XRefTable.Table := by
    rw [hsplit]; simp
  obtain ⟨f, hf⟩ := Option.isSome_iff_exists.mp (hsome _ hmem)
  obtain ⟨g1, g2, g3⟩ := fieldOfWidget_some lib ctx _ f hf
  simp only at g1 g2 g3
  have gname : f.Name = n := by
    rw [hname] at g3
    exact (Option.some.inj g3).symm
  -- the fields in scan order, split at the last widget named `n`
  have hfs : (keptWidgets ctx.XRefTable.Table).filterMap (fieldOfWidget lib ctx) =
      pre.filterMap (fieldOfWidget lib ctx) ++ f :: post.filterMap (fieldOfWidget lib ctx) := by
    rw [hsplit, List.filterMap_append, List.filterMap_cons, hf]
  have hpostName : ∀ g ∈ post.filterMap (fieldOfWidget lib ctx), g.Name ≠ f.Name := by
    intro g hg
    obtain ⟨w, hw, hwg⟩ := List.mem_filterMap.mp hg
    obtain ⟨_, _, k3⟩ := fieldOfWidget_some lib ctx w g hwg
    intro hgn
    exact hlast w hw (by rw [k3, hgn, gname])
  have hpostId : ∀ g ∈ post.filterMap (fieldOfWidget lib ctx), g.ObjectId ≠ f.ObjectId := by
    intro g hg
    obtain ⟨w, hw, hwg⟩ := List.mem_filterMap.mp hg
    obtain ⟨k1, _, _⟩ := fieldOfWidget_some lib ctx w g hwg
    rw [hsplit, List.map_append, List.map_cons] at hkn
    have hnd := (List.nodup_cons.mp (List.nodup_append.mp hkn).2.1).1
    intro hgi
    apply hnd
    have hm : w.1 ∈ post.map Prod.fst := List.mem_map_of_mem Prod.fst hw
    rw [← k1, hgi, g1] at hm
    exact hm
  have hbyName : mapGet (((keptWidgets ctx.XRefTable.Table).filterMap
      (fieldOfWidget lib ctx)).foldl indexField ⟨ctx, [], []⟩).fieldMapByName n = some f := by
    rw [foldl_indexField_byName, hfs, ← gname]
    exact mapGet_foldl_mapSet_last FormField.Name _ _ f _ hpostName
  have hbyId : mapGet (((keptWidgets ctx.XRefTable.Table).filterMap
      (fieldOfWidget lib ctx)).foldl indexField ⟨ctx, [], []⟩).fieldMapById j = some f := by
    rw [foldl_indexField_byId, hfs, ← g1]
    exact mapGet_foldl_mapSet_last FormField.ObjectId _ _ f _ hpostId
  have hlen : (((keptWidgets ctx.XRefTable.Table).filterMap (fieldOfWidget lib ctx)).foldl
      indexField ⟨ctx, [], []⟩).fieldMapById.length = (keptWidgets ctx.XRefTable.Table).length := by
    rw [foldl_indexField_byId, length_foldl_mapSet FormField.ObjectId _ _ _ (by simp [mapKeys])]
    · simp [h3]
    · rw [h1]; exact hkn
  have hdict : dictOf ctx j = some dict := by
    obtain ⟨item, hitem, hk⟩ := keptWidgets_mem _ _ hmem
    obtain ⟨hobj, _, _⟩ := keptDict_some item dict hk
    have := mapGet_of_mem_nodup ctx.XRefTable.Table j item hids hitem
    unfold dictOf
    rw [this]
    obtain ⟨o⟩ := item
    simp only at hobj
    subst hobj
    rfl
  have hctx := foldl_indexField_ctx
    ((keptWidgets ctx.XRefTable.Table).filterMap (fieldOfWidget lib ctx)) ⟨ctx, [], []⟩
  simp only at hctx
  generalize (((keptWidgets ctx.XRefTable.Table).filterMap (fieldOfWidget lib ctx)).foldl
      indexField ⟨ctx, [], []⟩) = r' at heq hbyName hbyId hlen hctx
  refine ⟨r', f, heq, hctx, hlen, hbyName, hbyId, g1, g2, gname, hdict, ?_⟩
  intro value option ro
  have e1 : SetTextFieldByName r' n value ro = SetTextFieldById r' j value ro := by
    simp [SetTextFieldByName, hbyName, g1]
  have e2 : SetCheckboxFieldByName r' n option ro = SetCheckboxFieldById r' j option ro := by
    simp [SetCheckboxFieldByName, hbyName, g1]
  have hd' : dictOf r'.ctx f.Dict = some dict := by rw [hctx, g2]; exact hdict
  refine ⟨e1, e2, ?_, ?_, ?_, ?_⟩
  · intro id hid
    rw [e1, SetTextFieldById_frame r' j f value ro hbyId id (by rw [g2]; exact hid), hctx]
  · intro id hid
    rw [e2, SetCheckboxFieldById_frame r' j f option ro hbyId id (by rw [g2]; exact hid), hctx]
  · intro ht
    rw [e1]
    have := SetTextFieldById_writes r' j f dict value ro hbyId ht hd'
    rw [g2] at this
    exact this
  · intro ht
    rw [e2]
    have := SetCheckboxFieldById_writes r' j f dict option ro hbyId ht hd'
    rw [g2] at this
    exact this

/-- Claim C9 on `dupTable`, where the widgets 5 and 9 share the name `dup`: the
name leads to object 9 and object 5 is left alone. -/
theorem C9_witness :
    (keptWidgets dupTable).map (fun w => (w.1, widgetName pdfcpuExample w.2)) =
      [(5, some "dup"), (7, some "box"), (9, some "dup")] ∧
    ∃ r' f, extractFormFields pdfcpuExample ⟨⟨⟨dupTable⟩⟩, [], []⟩ =
        Outcome.returned (none, r') ∧
      r'.fieldMapById.length = 3 ∧ mapGet r'.fieldMapByName "dup" = some f ∧ f.ObjectId = 9 ∧
      SetTextFieldByName r' "dup" (goString "x") false =
        SetTextFieldById r' 9 (goString "x") false ∧
      mapGet (SetTextFieldByName r' "dup" (goString "x") false).2.ctx.XRefTable.Table 5 =
        mapGet dupTable 5 := by
  obtain ⟨r', f, h1, _, h2, h3, _, h4, _, _, _, h5⟩ :=
    C9_duplicate_names_last_wins pdfcpuExample ⟨⟨dupTable⟩⟩ (by decide) (by decide) "dup"
      [(5, widgetDict "Tx" (Object.StringLiteral "dup") [0, 0, 10, 10] []),
       (7, widgetDict "Btn" (Object.StringLiteral "box") [0, 20, 10, 30] [])] [] 9
      (widgetDict "Tx" (Object.HexLiteral "feff006400750070") [0, 40, 10, 50] []) rfl rfl
      (fun w hw => absurd hw (List.not_mem_nil w))
  exact ⟨rfl, r', f, h1, h2, h3, h4, (h5 (goString "x") "1" false).1,
    (h5 (goString "x") "1" false).2.2.1 5 (by decide)⟩

/-- Claim C10, evaluated on the code: the field 323 of `docFiller` has a
rectangle 200 wide and 50 high with its lower-left corner at (400, 100).  For
every watermark layer the overlay is requested on page 1 with the description
`pos:bl, rot: 0, sc: 1.0000 abs, off: 400 100`: anchored bottom-left at the
corner, at absolute scale 1, and with neither the width nor the height of the
rectangle in it.  The recording layer `pdfcpuExample` shows the request. -/
theorem C10_overlay_description_without_size (lib : Pdfcpu) (image : List Nat) :
    mapGet docFiller.fieldMapById 323 = some docField323 ∧
    docField323.Rect.Width = 200 ∧ docField323.Rect.Height = 50 ∧
    AddImageOverObjectById lib docFiller 323 image =
      (match lib.ImageWatermarkForReader image "pos:bl, rot: 0, sc: 1.0000 abs, off: 400 100"
          true false DisplayUnit.POINTS with
       | .error err => (some ("Build ImageWatermark failed: " ++ err), docFiller)
       | .ok wm =>
         match lib.AddWatermarks docFiller.ctx [1] wm with
         | (some err, ctx1) =>
           (some ("Add ImageWatermark failed: " ++ err), { docFiller with ctx := ctx1 })
         | (none, ctx1) => (none, { docFiller with ctx := ctx1 })) ∧
    (AddImageOverObjectById pdfcpuExample docFiller 323 image).2.ctx.XRefTable.Table =
      docTable ++ [(1000, ⟨some (Object.Dict
        [("Watermark", Object.StringLiteral "pos:bl, rot: 0, sc: 1.0000 abs, off: 400 100"),
         ("Pages", Object.Array [Object.Integer 1])])⟩)] := by
  refine ⟨rfl, by norm_num [Rectangle.Width, docField323], by norm_num [Rectangle.Height, docField323], ?_, rfl⟩
  rfl

end PdfFillForm
